import Mathlib

/-!
Verification of the DataStage→Talend ETL migrator against its specification.

The repository's Python sources are shallowly embedded: Python strings are
lists of characters (`PyStr`), Python dicts are association lists with
last-write-wins lookup, and the regular expressions used by the code are
translated into explicit left-to-right scanners with the same matching
semantics.  Every definition is translated from the file and function named
in its doc comment.
-/

set_option maxRecDepth 10000

/-- Python strings, embedded as lists of characters. -/
abbrev PyStr := List Char

/-- Convert a Lean string literal to a `PyStr`. -/
def pys (x : String) : PyStr := x.data

/-- Characters treated as whitespace by Python's `str.strip` / regex `\s`. -/
def isPySpace (c : Char) : Bool :=
  c = ' ' || c = '\t' || c = '\n' || c = '\r' || c = Char.ofNat 11 || c = Char.ofNat 12

/-- Python `s.lstrip()`. -/
def pyLstrip (s : PyStr) : PyStr := s.dropWhile isPySpace

/-- Python `s.rstrip()`. -/
def pyRstrip (s : PyStr) : PyStr := (s.reverse.dropWhile isPySpace).reverse

/-- Python `s.strip()`. -/
def pyStrip (s : PyStr) : PyStr := pyRstrip (pyLstrip s)

/-- Python `s.lower()` (ASCII; the repository's data is ASCII). -/
def pyLower (s : PyStr) : PyStr := s.map Char.toLower

/-- Python `s.upper()` (ASCII). -/
def pyUpper (s : PyStr) : PyStr := s.map Char.toUpper

/-- Index of the first occurrence of `pat` in `s`, as Python `s.find(pat)`. -/
def findSubIdx (pat : PyStr) : PyStr → Option Nat
  | [] => if pat.isPrefixOf ([] : PyStr) then some 0 else none
  | c :: t =>
    if pat.isPrefixOf (c :: t) then some 0
    else (findSubIdx pat t).map (· + 1)

/-- Python `pat in s` (substring containment). -/
def containsSub (pat s : PyStr) : Bool := (findSubIdx pat s).isSome

/-- Python `s.split(delim, 1)[1]`; only used after a containment check. -/
def afterFirstSub (pat s : PyStr) : PyStr :=
  match findSubIdx pat s with
  | some i => s.drop (i + pat.length)
  | none => s

/-- Python `s.split(delim, 1)[0]`. -/
def beforeFirstSub (pat s : PyStr) : PyStr :=
  match findSubIdx pat s with
  | some i => s.take i
  | none => s

/-- Python `s.split(sep)` for a one-character separator (keeps empty parts). -/
def splitOnCharPy (sep : Char) : PyStr → List PyStr
  | [] => [[]]
  | c :: t =>
    if c = sep then [] :: splitOnCharPy sep t
    else
      match splitOnCharPy sep t with
      | [] => [[c]]
      | h :: r => (c :: h) :: r

/-- Python `s.split(sep)[-1]` for a one-character separator. -/
def lastSplitPart (sep : Char) (s : PyStr) : PyStr :=
  (splitOnCharPy sep s).getLast?.getD []

/-- Python `s.rsplit(sep, 1)[0]` for a one-character separator: the prefix
before the last occurrence of `sep`, or all of `s` when `sep` is absent. -/
def rsplit1Before (sep : Char) (s : PyStr) : PyStr :=
  if s.contains sep then
    ((s.reverse.dropWhile (· ≠ sep)).drop 1).reverse
  else s

/-- Python `'\n'.join(parts)`. -/
def joinNL (parts : List PyStr) : PyStr := List.intercalate ['\n'] parts

/-- Python lexicographic string comparison `a < b` (by code point). -/
def pyLt : PyStr → PyStr → Bool
  | [], [] => false
  | [], _ :: _ => true
  | _ :: _, [] => false
  | a :: as, b :: bs =>
    if a.toNat < b.toNat then true
    else if b.toNat < a.toNat then false
    else pyLt as bs

/-- Python `a > b` on strings. -/
def pyGt (a b : PyStr) : Bool := pyLt b a

/-- Association-list lookup with Python-dict semantics (the last write to a
key wins). -/
def dGet (m : List (PyStr × α)) (k : PyStr) : Option α :=
  m.foldl (fun acc p => if p.1 = k then some p.2 else acc) none

/-! ## `decode_dsx_value` — `src/temp5.py` lines 53–85 -/

/-- `re.sub(r'\\\(\d\)', '', value)` from `decode_dsx_value`: remove control
markers `\(<digit>)`, scanning left to right without rescanning replacements. -/
def removeMarkersF : Nat → PyStr → PyStr
  | 0, s => s
  | _ + 1, [] => []
  | fuel + 1, c :: rest =>
    if c = '\\' then
      match rest with
      | '(' :: d :: ')' :: rest2 =>
        if d.isDigit then removeMarkersF fuel rest2
        else c :: removeMarkersF fuel rest
      | _ => c :: removeMarkersF fuel rest
    else c :: removeMarkersF fuel rest

/-- `re.sub(r'\\\(\d\)', '', value)` with the scan fuelled by the string
length (an upper bound on the number of scanning steps, so the fuel never
runs out and the definition stays structurally recursive). -/
def removeMarkers (s : PyStr) : PyStr := removeMarkersF s.length s

/-- `decoded.replace('\\\\', '\\')` from `decode_dsx_value`: collapse double
backslashes left to right. -/
def unescapeBSF : Nat → PyStr → PyStr
  | 0, s => s
  | _ + 1, [] => []
  | fuel + 1, c :: rest =>
    if c = '\\' then
      match rest with
      | r :: rest2 =>
        if r = '\\' then c :: unescapeBSF fuel rest2 else c :: unescapeBSF fuel rest
      | [] => [c]
    else c :: unescapeBSF fuel rest

/-- `decoded.replace('\\\\', '\\')` from `decode_dsx_value`: collapse double
backslashes left to right (fuelled by the string length like `removeMarkers`). -/
def unescapeBS (s : PyStr) : PyStr := unescapeBSF s.length s

/-- One attempt of `re.search(r'file[/\\](.+)', s, re.IGNORECASE)` anchored at
the head of `s`: case-insensitive `file`, then `/` or `\`, then at least one
non-newline character; the group is the maximal non-newline run after the
slash. -/
def fileSlashAt (s : PyStr) : Option PyStr :=
  if (pys "file").isPrefixOf (pyLower s)
      && ((s.drop 4).head? = some '/' || (s.drop 4).head? = some '\\')
      && !(s.drop 5).isEmpty
      && !((s.drop 5).head? = some '\n')
  then some ((s.drop 5).takeWhile (· ≠ '\n'))
  else none

/-- `re.search(r'file[/\\](.+)', s, re.IGNORECASE)`: the group of the
leftmost match, scanning positions left to right. -/
def afterFileSlash : PyStr → Option PyStr
  | [] => none
  | c :: t =>
    match fileSlashAt (c :: t) with
    | some g => some g
    | none => afterFileSlash t

/-- `re.sub(r'^0+file[/\\]?', '', s, flags=re.IGNORECASE)` from the fallback
branch of `decode_dsx_value`. -/
def strip0File (s : PyStr) : PyStr :=
  let zs := s.takeWhile (· = '0')
  if zs.isEmpty then s
  else
    let rest := s.drop zs.length
    if (pys "file").isPrefixOf (pyLower rest) then
      match rest.drop 4 with
      | c :: r => if c = '/' || c = '\\' then r else rest.drop 4
      | [] => []
    else s

/-- `decode_dsx_value` (src/temp5.py:53–85) before its final `.strip()`:
marker removal, backslash unescaping, the `file[/\]` path extraction with its
`^0+file` fallback, and the trailing-sentinel-`0` trim. -/
def decodeCore (value : PyStr) : PyStr :=
  let d1 := unescapeBS (removeMarkers value)
  let d2 :=
    if containsSub (pys "file") (pyLower d1) && (d1.contains '/' || d1.contains '\\') then
      match afterFileSlash d1 with
      | some g => g
      | none => strip0File d1
    else d1
  if d2.getLast? = some '0' && (d2.contains '/' || d2.contains '\\') then
    d2.dropLast
  else d2

/-- `decode_dsx_value` (src/temp5.py:53–85) on strings. -/
def decode_dsx_value (value : PyStr) : PyStr := pyStrip (decodeCore value)

/-! ## Heredoc parsing — `src/temp5.py` lines 200–256 -/

/-- Capture of a lazy regex group `(.*?)"`: the characters up to the next
double quote, failing if a newline or the end of the string comes first. -/
def capTillQuote : PyStr → Option PyStr
  | [] => none
  | c :: t =>
    if c = '"' then some []
    else if c = '\n' then none
    else (capTillQuote t).map (c :: ·)

/-- `re.search(r'<pre>(.*?)"', line)` for a literal prefix `pre` (which ends
in the opening quote): scan left to right; at each match of `pre` try to
close the quote, otherwise keep scanning. -/
def searchPreQuoted (pre : PyStr) : PyStr → Option PyStr
  | [] => none
  | c :: t =>
    if pre.isPrefixOf (c :: t) then
      match capTillQuote ((c :: t).drop pre.length) with
      | some v => some v
      | none => searchPreQuoted pre t
    else searchPreQuoted pre t

/-- The collection loop of `parse_heredoc_value` for a multi-line heredoc:
gather lines until one whose stripped form starts with the delimiter.
`some n` counts the lines consumed including the terminator; `none` means the
end of the input was reached first. -/
def collectHeredoc (delim : PyStr) : List PyStr → (List PyStr × Option Nat)
  | [] => ([], none)
  | l :: rest =>
    if delim.isPrefixOf (pyStrip l) then ([], some 1)
    else
      match collectHeredoc delim rest with
      | (acc, n?) => (l :: acc, n?.map (· + 1))

/-- `parse_heredoc_value` (src/temp5.py:200–239).  The delimiter constant is
`'=+=+=='` exactly as written at line 206 of the source — six characters, not
the seven-character `'=+=+=+='` used by its caller and by the DSX grammar. -/
def parse_heredoc_value (content : List PyStr) (start_idx : Nat) : PyStr × Nat :=
  if h : start_idx < content.length then
    let line := content.get ⟨start_idx, h⟩
    let delim := pys "=+=+=="
    if containsSub delim line then
      let after := afterFirstSub delim line
      if pyStrip after = [] then
        match collectHeredoc delim (content.drop (start_idx + 1)) with
        | (acc, some n) => (pyRstrip (joinNL acc), start_idx + 1 + n)
        | (acc, none) => (pyRstrip (joinNL acc), content.length)
      else if containsSub delim after then
        (pyRstrip (beforeFirstSub delim after), start_idx + 1)
      else (pyRstrip after, start_idx + 1)
    else
      match searchPreQuoted (pys "Value \"") line with
      | some v => (v, start_idx + 1)
      | none => (pyStrip line, start_idx + 1)
  else ([], start_idx)

/-- The content-extraction step of `parse_complex_sql_heredoc`
(src/temp5.py:241–256): when the stripped value starts and ends with
`=+=+=+=` the code slices `[8:-8]`, although that delimiter is only seven
characters long. -/
def parseComplexSqlHeredocContent (value_str : PyStr) : PyStr :=
  let s := pyStrip value_str
  if (pys "=+=+=+=").isPrefixOf s && (pys "=+=+=+=").isSuffixOf s then
    (s.drop 8).take (s.length - 16)
  else value_str

/-! ## Data-flow policing — `src/translation_service.py` lines 511–621 -/

/-- An IR node as read by `_build_talend_job_from_ir`: `id`, `type`,
`subtype`. -/
structure PNode where
  id : PyStr
  ptype : PyStr
  psubtype : PyStr
deriving DecidableEq

/-- An IR link as read by `_build_talend_job_from_ir`: the code reads the
endpoints from `link["from"]["component_id"]` and `link["to"]["component_id"]`. -/
structure PLink where
  lid : PyStr
  fromId : PyStr
  toId : PyStr
deriving DecidableEq

/-- `source_types` (src/translation_service.py:560). -/
def source_types : List PyStr := [pys "file_read", pys "database_read", pys "Source"]

/-- `sink_types` (src/translation_service.py:561). -/
def sink_types : List PyStr :=
  [pys "file_write", pys "database_write", pys "custom_write", pys "Sink"]

/-- `transform_types` (src/translation_service.py:562). -/
def transform_types : List PyStr :=
  [pys "transform", pys "lookup", pys "custom_read", pys "map", pys "Transform"]

/-- `get_node_role` (src/translation_service.py:564–573). -/
def get_node_role (node_type : PyStr) : PyStr :=
  if source_types.contains node_type then pys "source"
  else if sink_types.contains node_type then pys "sink"
  else if transform_types.contains node_type then pys "transform"
  else pys "unknown"

/-- `mappings.get((ir_type, ir_subtype), "tUnknown")`
(src/translation_service.py:540). -/
def mappingsGet (mappings : List ((PyStr × PyStr) × PyStr)) (k : PyStr × PyStr) : PyStr :=
  (mappings.foldl (fun acc p => if p.1 = k then some p.2 else acc) none).getD (pys "tUnknown")

/-- The DB-component exclusion loop (src/translation_service.py:534–548): a
node id is excluded when DB components are disabled and its mapping resolves
to `tDBInput` or `tDBOutput`. -/
def excludedNodeIds (include_db : Bool) (mappings : List ((PyStr × PyStr) × PyStr))
    (nodes : List PNode) : List PyStr :=
  nodes.filterMap (fun n =>
    if !include_db && ((mappingsGet mappings (n.ptype, n.psubtype) = pys "tDBInput")
        || (mappingsGet mappings (n.ptype, n.psubtype) = pys "tDBOutput"))
    then some n.id else none)

/-- `node_type_map.get(node_id, "unknown")` built over all IR nodes
(src/translation_service.py:557, 589–590). -/
def nodeTypeOf (nodes : List PNode) (k : PyStr) : PyStr :=
  (dGet (nodes.map (fun n => (n.id, n.ptype))) k).getD (pys "unknown")

/-- Whether one link passes every rule of the link-filtering loop
(src/translation_service.py:575–619): not attached to an excluded DB node,
not emitted by a sink, not received by a source, and not the direction of a
bidirectional pair whose source id is the larger one (the reverse-link check
runs against the full original link list). -/
def keepLink (include_db : Bool) (mappings : List ((PyStr × PyStr) × PyStr))
    (nodes : List PNode) (links : List PLink) (l : PLink) : Bool :=
  !((excludedNodeIds include_db mappings nodes).contains l.fromId
      || (excludedNodeIds include_db mappings nodes).contains l.toId)
  && !(get_node_role (nodeTypeOf nodes l.fromId) = pys "sink")
  && !(get_node_role (nodeTypeOf nodes l.toId) = pys "source")
  && !((links.any (fun l2 => l2.fromId = l.toId && l2.toId = l.fromId))
        && pyGt l.fromId l.toId)

/-- The surviving link set of the data-flow policing in
`_build_talend_job_from_ir` (src/translation_service.py:575–621). -/
def policeLinks (include_db : Bool) (mappings : List ((PyStr × PyStr) × PyStr))
    (nodes : List PNode) (links : List PLink) : List PLink :=
  links.filter (keepLink include_db mappings nodes links)

/-- Some surviving link runs from `a` to `b`. -/
def hasEdgeB (L : List PLink) (a b : PyStr) : Bool :=
  L.any (fun l => l.fromId = a && l.toId = b)

/-- A cyclic node sequence `n1 → n2 → … → nk → n1` with `k ≥ 2`, each step
realised by a link of `L`. -/
def cycleChainB (L : List PLink) (ns : List PyStr) : Bool :=
  decide (2 ≤ ns.length) && (ns.zip (ns.rotate 1)).all (fun p => hasEdgeB L p.1 p.2)

/-! ## tMap expression translation — `src/translation_service.py` lines 889–1033 -/

/-- An IR schema column as read by
`_generate_tmap_metadata_and_nodedata_dict`: `name`, `type`,
`hasTransformation`, `expression`. -/
structure TmapCol where
  name : PyStr
  ctype : PyStr
  hasTransformation : Bool
  expression : PyStr
deriving DecidableEq

/-- One `mapperTableEntries` output row produced for a tMap node. -/
structure TmapEntry where
  name : PyStr
  expression : PyStr
  etype : PyStr
  nullable : PyStr
deriving DecidableEq

/-- `_map_ir_type_to_talend` (src/translation_service.py:1035–1050). -/
def map_ir_type_to_talend (ir_type : PyStr) : PyStr :=
  (dGet [(pys "string", pys "id_String"), (pys "integer", pys "id_Integer"),
      (pys "int", pys "id_Integer"), (pys "number", pys "id_Double"),
      (pys "decimal", pys "id_BigDecimal"), (pys "float", pys "id_Float"),
      (pys "double", pys "id_Double"), (pys "date", pys "id_Date"),
      (pys "timestamp", pys "id_Date"), (pys "boolean", pys "id_Boolean"),
      (pys "bool", pys "id_Boolean")] (pyLower ir_type)).getD (pys "id_String")

/-- One attempt of `re.search(r'(?i)(upper|uppercase)\s*\(([^)]+)\)', e)`
anchored at the head of `s` for one alternative `name` of the alternation:
the function name case-insensitively, optional whitespace, `(`, a nonempty
run of non-`)` characters (group 2), then `)`. -/
def upperArgAfter (name : PyStr) (s : PyStr) : Option PyStr :=
  if name.isPrefixOf (pyLower s) then
    match (s.drop name.length).dropWhile isPySpace with
    | '(' :: r3 =>
      let arg := r3.takeWhile (· ≠ ')')
      if arg.isEmpty then none
      else if (r3.drop arg.length).head? = some ')' then some arg else none
    | _ => none
  else none

/-- Both alternatives at one position, in the regex engine's order: `upper`
first, backtracking to `uppercase`. -/
def upperAppAt (s : PyStr) : Option PyStr :=
  match upperArgAfter (pys "upper") s with
  | some a => some a
  | none => upperArgAfter (pys "uppercase") s

/-- `re.search(r'(?i)(upper|uppercase)\s*\(([^)]+)\)', e)`: group 2 of the
leftmost match. -/
def searchUpperApp : PyStr → Option PyStr
  | [] => none
  | c :: t =>
    match upperAppAt (c :: t) with
    | some a => some a
    | none => searchUpperApp t

/-- `re.sub(r'UserLink\.', incoming + '.', e, flags=re.IGNORECASE)`
(src/translation_service.py:1032), fuelled by the string length.  The final
`.` of the pattern is matched literally (case-insensitivity only affects the
letters). -/
def subUserLinkF (incoming : PyStr) : Nat → PyStr → PyStr
  | 0, s => s
  | _ + 1, [] => []
  | fuel + 1, c1 :: rest1 =>
    match rest1 with
    | c2 :: c3 :: c4 :: c5 :: c6 :: c7 :: c8 :: c9 :: rest =>
      if pyLower [c1, c2, c3, c4, c5, c6, c7, c8] = pys "userlink" && c9 = '.' then
        incoming ++ '.' :: subUserLinkF incoming fuel rest
      else c1 :: subUserLinkF incoming fuel rest1
    | _ => c1 :: subUserLinkF incoming fuel rest1

/-- `re.sub(r'UserLink\.', incoming + '.', e, flags=re.IGNORECASE)`. -/
def subUserLink (incoming s : PyStr) : PyStr := subUserLinkF incoming s.length s

/-- `_convert_ir_expression_to_talend` (src/translation_service.py:999–1033). -/
def convert_ir_expression_to_talend (ir_expression incoming_conn_name col_name : PyStr) :
    PyStr :=
  if ir_expression.isEmpty then incoming_conn_name ++ '.' :: col_name
  else
    match searchUpperApp ir_expression with
    | some arg0 =>
      let arg := pyStrip arg0
      let col_ref := if arg.contains '.' then lastSplitPart '.' arg else arg
      pys "StringHandling.UPPER(" ++ incoming_conn_name ++ '.' :: col_ref ++ [')']
    | none =>
      if ir_expression.contains '.' then
        incoming_conn_name ++ '.' :: lastSplitPart '.' ir_expression
      else if ir_expression = col_name || pyUpper ir_expression = pyUpper col_name then
        incoming_conn_name ++ '.' :: col_name
      else subUserLink incoming_conn_name ir_expression

/-- The `output_entries` loop of `_generate_tmap_metadata_and_nodedata_dict`
(src/translation_service.py:918–940): for each schema column, translate its
expression when `hasTransformation` is set and the expression is non-empty,
otherwise emit the pass-through. -/
def tmapOutputEntries (schema_columns : List TmapCol) (incoming_conn_name : PyStr) :
    List TmapEntry :=
  schema_columns.map (fun col =>
    { name := col.name
      expression :=
        if col.hasTransformation && !col.expression.isEmpty then
          convert_ir_expression_to_talend col.expression incoming_conn_name col.name
        else incoming_conn_name ++ '.' :: col.name
      etype := map_ir_type_to_talend col.ctype
      nullable := pys "true" })

/-- The amended C8 expression rule for a single tMap output column, written
following the spec's case wording: `StringHandling.UPPER(<incoming>.X)` when
an UPPER/UpperCase application occurs in the expression (`X` the last
dot-segment of the stripped argument); `<incoming>.<last dot-segment>` for a
dotted reference; the pass-through `<incoming>.<col>` when the column has no
transformation, an empty expression, or an expression equal to the column
name up to case; and otherwise the IR expression unchanged. -/
def specTmapExpression (incoming_conn_name : PyStr) (col : TmapCol) : PyStr :=
  if !col.hasTransformation || col.expression.isEmpty then
    incoming_conn_name ++ '.' :: col.name
  else
    match searchUpperApp col.expression with
    | some arg0 =>
      let arg := pyStrip arg0
      let col_ref := if arg.contains '.' then lastSplitPart '.' arg else arg
      pys "StringHandling.UPPER(" ++ incoming_conn_name ++ '.' :: col_ref ++ [')']
    | none =>
      if col.expression.contains '.' then
        incoming_conn_name ++ '.' :: lastSplitPart '.' col.expression
      else if col.expression = col.name || pyUpper col.expression = pyUpper col.name then
        incoming_conn_name ++ '.' :: col.name
      else col.expression

/-! ## XML attribute escaping — `src/translation_service.py` lines 1252–1450 -/

/-- Python `s.replace(c, repl)` for a one-character pattern: character-wise
substitution. -/
def pyReplaceChar (c : Char) (repl : PyStr) (s : PyStr) : PyStr :=
  s.flatMap (fun x => if x = c then repl else [x])

/-- The escaping applied to every `elementParameter` value in `_node_to_xml`
(src/translation_service.py:1263–1268) and `_connection_to_xml`
(lines 1437–1442): `&`, `<`, `>`, `"`, replaced in that order. -/
def escParamValue (s : PyStr) : PyStr :=
  pyReplaceChar '"' (pys "&quot;")
    (pyReplaceChar '>' (pys "&gt;")
      (pyReplaceChar '<' (pys "&lt;")
        (pyReplaceChar '&' (pys "&amp;") s)))

/-- The escaping applied to a tMap `mapperTableEntries` expression
(src/translation_service.py:1377): only `&`, `<`, `>` — the double quote is
left untouched. -/
def escExpr (s : PyStr) : PyStr :=
  pyReplaceChar '>' (pys "&gt;")
    (pyReplaceChar '<' (pys "&lt;")
      (pyReplaceChar '&' (pys "&amp;") s))

/-- The `<mapperTableEntries …/>` line emitted for one tMap output entry
(src/translation_service.py:1376–1386): `name`, `type` and `nullable` are
interpolated unescaped; `expression` goes through `escExpr`. -/
def mapperEntryLineXml (e : TmapEntry) : PyStr :=
  pys "        <mapperTableEntries name=\"" ++ e.name
    ++ pys "\" expression=\"" ++ escExpr e.expression
    ++ pys "\" type=\"" ++ e.etype
    ++ pys "\" nullable=\"" ++ e.nullable ++ pys "\"/>"

/-- Character-wise form of the four-entity XML escape. -/
def xmlEscChar (c : Char) : PyStr :=
  if c = '&' then pys "&amp;"
  else if c = '<' then pys "&lt;"
  else if c = '>' then pys "&gt;"
  else if c = '"' then pys "&quot;"
  else [c]

/-- Character-wise form of the quote-keeping escape. -/
def xmlEscCharKeepQuote (c : Char) : PyStr :=
  if c = '&' then pys "&amp;"
  else if c = '<' then pys "&lt;"
  else if c = '>' then pys "&gt;"
  else [c]

/-! ## ASG→IR lowering — `src/temp_7.py` (`EnhancedASGToIRConverter`) -/

/-- An ASG schema column as read by `_create_enhanced_ir_column`
(src/temp_7.py:410–447); `expression` stands for
`transformation_logic['expression']`. -/
structure ASGColumn7 where
  name : PyStr
  ctype : PyStr
  nullable : Bool
  has_transformation : Bool
  expression : PyStr
deriving DecidableEq

/-- An ASG pin as read by `_create_schema_from_pins_with_transformations`
(src/temp_7.py:346–408). -/
structure ASGPin7 where
  name : PyStr
  direction : PyStr
  schema : List ASGColumn7
deriving DecidableEq

/-- An ASG node as read by the converter: opaque id, name, `enhanced_type`,
pins, and the optional `configuration.schema` list used by
`_create_target_schema`. -/
structure ASGNode7 where
  id : PyStr
  name : PyStr
  enhanced_type : PyStr
  pins : List ASGPin7
  configSchema : Option (List ASGColumn7)
deriving DecidableEq

/-- An ASG edge as read by `_convert_single_edge` (src/temp_7.py:808–825). -/
structure ASGEdge7 where
  from_node : PyStr
  to_node : PyStr
deriving DecidableEq

/-- The ASG job: nodes and edges in traversal order. -/
structure ASGJob7 where
  nodes : List ASGNode7
  edges : List ASGEdge7
deriving DecidableEq

/-- An IR column as produced by `_create_enhanced_ir_column`, restricted to
the fields the claims mention (the statistics counters do not feed ids). -/
structure IRColumn7 where
  name : PyStr
  ctype : PyStr
  nullable : Bool
  hasTransformation : Bool
  expression : PyStr
deriving DecidableEq

/-- An IR node as produced by `_convert_single_node_with_transformations`
(src/temp_7.py:284–327), restricted to id/type/name/schemaRef. -/
structure IRNode7 where
  id : PyStr
  irType : PyStr
  irSubtype : PyStr
  name : PyStr
  schemaRef : Option PyStr
deriving DecidableEq

/-- An IR link as produced by `_convert_single_edge`. -/
structure IRLink7 where
  id : PyStr
  fromNodeId : PyStr
  toNodeId : PyStr
  schemaRef : PyStr
deriving DecidableEq

/-- The IR document: nodes, links, the schemas dict and the
`asg_to_ir_node_id_map`, all in insertion order. -/
structure IRDoc7 where
  nodes : List IRNode7
  links : List IRLink7
  schemas : List (PyStr × List IRColumn7)
  idMap : List (PyStr × PyStr)
deriving DecidableEq

/-- `f"n{counter}"` (src/temp_7.py:292). -/
def nId (c : Nat) : PyStr := 'n' :: (Nat.repr c).data

/-- `f"l{len(self.ir_data['links']) + 1}"` (src/temp_7.py:815). -/
def lId (c : Nat) : PyStr := 'l' :: (Nat.repr c).data

/-- `f"s_{asg_node_id}"` (src/temp_7.py:349, 764, 841). -/
def sId (asg_id : PyStr) : PyStr := 's' :: '_' :: asg_id

/-- `_map_sql_type_to_ir` (src/temp_7.py:731–751). -/
def map_sql_type_to_ir (t : PyStr) : PyStr :=
  (dGet [(pys "VARCHAR", pys "string"), (pys "CHAR", pys "string"),
      (pys "INTEGER", pys "integer"), (pys "INT", pys "integer"),
      (pys "BIGINT", pys "long"), (pys "DECIMAL", pys "decimal"),
      (pys "NUMERIC", pys "decimal"), (pys "FLOAT", pys "float"),
      (pys "REAL", pys "float"), (pys "DOUBLE", pys "double"),
      (pys "DATE", pys "date"), (pys "TIME", pys "time"),
      (pys "TIMESTAMP", pys "timestamp"), (pys "BOOLEAN", pys "boolean"),
      (pys "BIT", pys "boolean")] (pyUpper t)).getD (pys "string")

/-- `_create_enhanced_ir_column` (src/temp_7.py:410–447), restricted to the
carried fields. -/
def create_enhanced_ir_column (c : ASGColumn7) : IRColumn7 :=
  { name := c.name
    ctype := map_sql_type_to_ir c.ctype
    nullable := c.nullable
    hasTransformation := c.has_transformation
    expression := if c.has_transformation then c.expression else [] }

/-- `_should_have_schema` (src/temp_7.py:753–759). -/
def should_have_schema (n : ASGNode7) : Bool :=
  [pys "TARGET", pys "SINK", pys "OUTPUT"].any
      (fun k => containsSub k (pyUpper n.enhanced_type))
  || [pys "TGT", pys "OUT", pys "TARGET", pys "SINK"].any
      (fun k => containsSub k (pyUpper n.name))

/-- The column list built by `_create_schema_from_pins_with_transformations`
(src/temp_7.py:346–408): all pins' columns in pin order. -/
def schemaColsFromPins (n : ASGNode7) : List IRColumn7 :=
  n.pins.flatMap (fun p => p.schema.map create_enhanced_ir_column)

/-- The column list built by `_create_target_schema` (src/temp_7.py:761–795):
`configuration.schema` when present and non-empty, else the first
input-direction pin's columns (plain columns, no transformation data). -/
def targetSchemaCols (n : ASGNode7) : List IRColumn7 :=
  let fromConfig : List IRColumn7 :=
    match n.configSchema with
    | some cols => cols.map (fun c =>
        { name := c.name, ctype := map_sql_type_to_ir c.ctype, nullable := c.nullable,
          hasTransformation := false, expression := [] })
    | none => []
  if !fromConfig.isEmpty then fromConfig
  else
    match n.pins.find? (fun p => p.direction = pys "input") with
    | some p => p.schema.map (fun c =>
        { name := c.name, ctype := map_sql_type_to_ir c.ctype, nullable := c.nullable,
          hasTransformation := false, expression := [] })
    | none => []

/-- `_convert_single_node_with_transformations` (src/temp_7.py:284–327),
parameterised over `mapType`, which models `_map_stage_type_to_ir`
(src/temp_7.py:449–481) — that function consults an external DB mapping
table, an external collaborator per the spec, and none of the claims depend
on its result.  Returns the IR node and the schema entry stored into
`ir_data['schemas']` (present iff the node has pins or `_should_have_schema`
holds). -/
def convertSingleNode (mapType : ASGNode7 → PyStr × PyStr) (counter : Nat)
    (a : ASGNode7) : IRNode7 × Option (PyStr × List IRColumn7) :=
  let entry? : Option (PyStr × List IRColumn7) :=
    if !a.pins.isEmpty then some (sId a.id, schemaColsFromPins a)
    else if should_have_schema a then some (sId a.id, targetSchemaCols a)
    else none
  ({ id := nId counter, irType := (mapType a).1, irSubtype := (mapType a).2,
     name := a.name, schemaRef := entry?.map (fun e => e.1) }, entry?)

/-- `_convert_nodes_with_transformations` (src/temp_7.py:273–282): fold over
the ASG nodes threading `node_counter`; returns the IR nodes, the
`asg_id → ir_id` map, the schemas dict and the `schema_mappings` dict, each
in insertion order (lookups use the last-write-wins `dGet`).  The source
wraps each conversion in try/except; the pure embedding cannot raise, so
every node converts. -/
def convertNodes (mapType : ASGNode7 → PyStr × PyStr) :
    Nat → List ASGNode7 →
      List IRNode7 × List (PyStr × PyStr) × List (PyStr × List IRColumn7)
        × List (PyStr × PyStr)
  | _, [] => ([], [], [], [])
  | counter, a :: rest =>
    let p := convertSingleNode mapType counter a
    let r := convertNodes mapType (counter + 1) rest
    (p.1 :: r.1,
      (a.id, nId counter) :: r.2.1,
      (match p.2 with | some e => e :: r.2.2.1 | none => r.2.2.1),
      (match p.2 with | some e => (a.id, e.1) :: r.2.2.2 | none => r.2.2.2))

/-- `_get_consistent_ir_node_id` (src/temp_7.py:827–832).  `pyHash` stands
for Python's process-seeded string `hash`; the fallback id fabricated for an
unknown ASG node id is `n{hash % 10000}`. -/
def getConsistentIrNodeId (pyHash : PyStr → Nat) (idm : List (PyStr × PyStr))
    (asg_node_id : PyStr) : PyStr :=
  match dGet idm asg_node_id with
  | some v => v
  | none => nId (pyHash asg_node_id % 10000)

/-- `_get_consistent_schema_ref` (src/temp_7.py:834–844): prefer the
recorded schema mapping; otherwise use `s_<from_node>`, adding an empty
schema entry when that key is absent. -/
def getConsistentSchemaRef (sm : List (PyStr × PyStr))
    (schemas : List (PyStr × List IRColumn7)) (from_node : PyStr) :
    PyStr × List (PyStr × List IRColumn7) :=
  match dGet sm from_node with
  | some sid => (sid, schemas)
  | none =>
    match dGet schemas (sId from_node) with
    | some _ => (sId from_node, schemas)
    | none => (sId from_node, schemas ++ [(sId from_node, [])])

/-- `_convert_edges` / `_convert_single_edge` (src/temp_7.py:797–825): links
are appended in edge-traversal order with ids `l{count+1}`. -/
def convertEdges (pyHash : PyStr → Nat) (idm : List (PyStr × PyStr))
    (sm : List (PyStr × PyStr)) :
    Nat → List (PyStr × List IRColumn7) → List ASGEdge7 →
      List IRLink7 × List (PyStr × List IRColumn7)
  | _, schemas, [] => ([], schemas)
  | count, schemas, e :: rest =>
    let g := getConsistentSchemaRef sm schemas e.from_node
    let r := convertEdges pyHash idm sm (count + 1) g.2 rest
    ({ id := lId (count + 1),
       fromNodeId := getConsistentIrNodeId pyHash idm e.from_node,
       toNodeId := getConsistentIrNodeId pyHash idm e.to_node,
       schemaRef := g.1 } :: r.1, r.2)

/-- `EnhancedASGToIRConverter.convert` (src/temp_7.py:200–256) restricted to
the id/graph structure: nodes, links, schemas and the asg→ir id map. -/
def convertASGToIR (mapType : ASGNode7 → PyStr × PyStr) (pyHash : PyStr → Nat)
    (asg : ASGJob7) : IRDoc7 :=
  let n := convertNodes mapType 0 asg.nodes
  let e := convertEdges pyHash n.2.1 n.2.2.2 0 n.2.2.1 asg.edges
  { nodes := n.1, links := e.1, schemas := e.2, idMap := n.2.1 }

/-- `validate_ir` (src/temp_7.py:910–943): every link endpoint must be an
existing IR node id and every link `schemaRef` an existing schema key. -/
def validate_ir (ir : IRDoc7) : Bool :=
  ir.links.all (fun l =>
    ir.nodes.any (fun n => n.id = l.fromNodeId)
      && ir.nodes.any (fun n => n.id = l.toNodeId))
  && ir.links.all (fun l => ir.schemas.any (fun s => s.1 = l.schemaRef))

/-- A stand-in for Python's process-seeded string hash used in concrete
counterexamples; the violations shown below hold for every choice of hash
function, so any fixed one models one run of the program. -/
def pyHashZero : PyStr → Nat := fun _ => 0

/-- A stand-in for the DB-backed stage-type mapping in concrete
counterexamples (the legacy default is `Transform`/`Generic`). -/
def mapTypeDefault : ASGNode7 → PyStr × PyStr := fun _ => (pys "Transform", pys "Generic")

/-! ## ASG edge building — `src/temp5.py` (`ASGBuilder`) -/

/-- A parsed DSX record as produced by `get_records` (src/temp5.py:588–675):
its `Identifier` and its filtered lines. -/
structure DSRecord where
  identifier : PyStr
  lines : List PyStr
deriving DecidableEq

/-- Capture of a regex group `([^"]*)"`: characters up to the next double
quote (newlines allowed), failing only at the end of the string. -/
def capTillQuoteNL : PyStr → Option PyStr
  | [] => none
  | c :: t =>
    if c = '"' then some []
    else (capTillQuoteNL t).map (c :: ·)

/-- `re.search(r'<pre>([^"]*)"', line)` for a literal prefix `pre` ending in
the opening quote. -/
def searchPreQuotedNL (pre : PyStr) : PyStr → Option PyStr
  | [] => none
  | c :: t =>
    if pre.isPrefixOf (c :: t) then
      match capTillQuoteNL ((c :: t).drop pre.length) with
      | some v => some v
      | none => searchPreQuotedNL pre t
    else searchPreQuotedNL pre t

/-- `\d+` anchored at the head: strip a nonempty digit run. -/
def dropDigits1 (s : PyStr) : Option PyStr :=
  let ds := s.takeWhile Char.isDigit
  if ds.isEmpty then none else some (s.drop ds.length)

/-- `re.match(r'^V\d+S\d+P\d+$', s)` (src/temp5.py:857). -/
def isPinId (s : PyStr) : Bool :=
  match s with
  | 'V' :: r =>
    match dropDigits1 r with
    | some ('S' :: r2) =>
      match dropDigits1 r2 with
      | some ('P' :: r3) =>
        match dropDigits1 r3 with
        | some [] => true
        | _ => false
      | _ => false
    | _ => false
  | _ => false

/-- `re.match(r'^V\d+S\d+$', s)` (src/temp5.py:869). -/
def isStageId (s : PyStr) : Bool :=
  match s with
  | 'V' :: r =>
    match dropDigits1 r with
    | some ('S' :: r2) =>
      match dropDigits1 r2 with
      | some [] => true
      | _ => false
    | _ => false
  | _ => false

/-- Python dict insertion: replace the value in place when the key exists,
else append. -/
def dictInsert (m : List (PyStr × α)) (k : PyStr) (v : α) : List (PyStr × α) :=
  if m.any (fun p => p.1 = k) then
    m.map (fun p => if p.1 = k then (k, v) else p)
  else m ++ [(k, v)]

/-- The `ASGBuilder` lookup state filled by `_organize_records`
(src/temp5.py:775–780, 848–887). -/
structure OrgState where
  pinRecords : List (PyStr × DSRecord)
  stageRecords : List (PyStr × DSRecord)
  pinPartnerMap : List (PyStr × PyStr)
  stageInputPins : List (PyStr × List PyStr)
  stageOutputPins : List (PyStr × List PyStr)
  containerRecord : Option DSRecord
deriving DecidableEq

/-- The builder state after `__init__` (src/temp5.py:768–781). -/
def emptyOrgState : OrgState := ⟨[], [], [], [], [], none⟩

/-- One iteration of `_organize_records` (src/temp5.py:850–887).  The first
test skips `ROOT`, `V0` and empty identifiers, so the final
`elif identifier == 'V0'` branch — the only place `container_record` would
be stored — is unreachable; it is kept here exactly as in the source. -/
def organizeStep (st : OrgState) (r : DSRecord) : OrgState :=
  if r.identifier = pys "ROOT" || r.identifier = pys "V0" || r.identifier.isEmpty then st
  else if isPinId r.identifier then
    let st1 := { st with pinRecords := dictInsert st.pinRecords r.identifier r }
    match r.lines.findSome? (fun line =>
        if containsSub (pys "Partner \"") line then
          searchPreQuoted (pys "Partner \"") line
        else none) with
    | some v => { st1 with pinPartnerMap := dictInsert st1.pinPartnerMap r.identifier v }
    | none => st1
  else if isStageId r.identifier then
    let st1 := { st with stageRecords := dictInsert st.stageRecords r.identifier r }
    r.lines.foldl (fun acc line =>
      if containsSub (pys "InputPins \"") line then
        match searchPreQuoted (pys "InputPins \"") line with
        | some v =>
          { acc with stageInputPins :=
              dictInsert acc.stageInputPins r.identifier (splitOnCharPy '|' v) }
        | none => acc
      else if containsSub (pys "OutputPins \"") line then
        match searchPreQuoted (pys "OutputPins \"") line with
        | some v =>
          { acc with stageOutputPins :=
              dictInsert acc.stageOutputPins r.identifier (splitOnCharPy '|' v) }
        | none => acc
      else acc) st1
  else if r.identifier = pys "V0" then { st with containerRecord := some r }
  else st

/-- `_organize_records` (src/temp5.py:848–887) over the record list. -/
def organizeRecords (records : List DSRecord) : OrgState :=
  records.foldl organizeStep emptyOrgState

/-- An ASG edge (src/temp5.py:1320–1328); the pin-name fields may be Python
`None` when the `Name "(.*?)"` regex fails on the consulted line. -/
structure ASGEdge5 where
  from_node : PyStr
  from_pin : PyStr
  from_pin_name : Option PyStr
  to_node : PyStr
  to_pin : PyStr
  to_pin_name : Option PyStr
  join_type : PyStr
deriving DecidableEq

/-- `_get_pin_name` (src/temp5.py:1403–1409): the first line containing
`Name "` but not `BEGIN` is consulted and its regex result (possibly `None`)
returned; otherwise the empty string. -/
def getPinName (st : OrgState) (pin_id : PyStr) : Option PyStr :=
  match dGet st.pinRecords pin_id with
  | some r =>
    match r.lines.find? (fun line =>
        containsSub (pys "Name \"") line && !containsSub (pys "BEGIN") line) with
    | some line => searchPreQuoted (pys "Name \"") line
    | none => some []
  | none => some []

/-- `_get_pin_direction` (src/temp5.py:1393–1401); `_build_edges` computes
it for each partner edge but never uses the result. -/
def getPinDirection (st : OrgState) (pin_id : PyStr) : PyStr :=
  match dGet st.pinRecords pin_id with
  | some r =>
    (r.lines.findSome? (fun line =>
      if containsSub (pys "OLEType \"CTrxInput\"") line then some (pys "input")
      else if containsSub (pys "OLEType \"CTrxOutput\"") line then some (pys "output")
      else none)).getD []
  | none => []

/-- `_determine_join_type` (src/temp5.py:1372–1391): scan the target stage's
lines for an `operator` property naming a join kind. -/
def determineJoinType (st : OrgState) (from_pin to_pin : PyStr) : PyStr :=
  match dGet st.stageRecords (rsplit1Before 'P' to_pin) with
  | some r =>
    (r.lines.findSome? (fun line =>
      if containsSub (pys "operator \"") line then
        match searchPreQuoted (pys "operator \"") line with
        | some op =>
          if containsSub (pys "left") (pyLower op) then some (pys "left_outer")
          else if containsSub (pys "full") (pyLower op) then some (pys "full_outer")
          else if containsSub (pys "inner") (pyLower op) then some (pys "inner")
          else none
        | none => none
      else none)).getD (pys "unknown")
  | none => pys "unknown"

/-- `_edge_exists` (src/temp5.py:1441–1446): duplicates are detected on the
`(from_pin, to_pin)` pair. -/
def edgeExists (edges : List ASGEdge5) (e : ASGEdge5) : Bool :=
  edges.any (fun e0 => e0.from_pin = e.from_pin && e0.to_pin = e.to_pin)

/-- The per-pin Partner pass of `_build_edges` (src/temp5.py:1305–1332). -/
def partnerEdges (st : OrgState) : List ASGEdge5 :=
  st.pinPartnerMap.foldl (fun acc pr =>
    let parts := splitOnCharPy '|' pr.2
    let partner_pin_id :=
      if parts.length ≥ 2 then (parts.get? 1).getD [] else (parts.get? 0).getD []
    let e : ASGEdge5 :=
      { from_node := rsplit1Before 'P' pr.1
        from_pin := pr.1
        from_pin_name := getPinName st pr.1
        to_node := rsplit1Before 'P' partner_pin_id
        to_pin := partner_pin_id
        to_pin_name := getPinName st partner_pin_id
        join_type := determineJoinType st pr.1 partner_pin_id }
    if edgeExists acc e then acc else acc ++ [e]) []

/-- The container pass of `_build_edges` (src/temp5.py:1334–1370): it only
runs when `container_record` is set, and its nested check requires
`LinkSourcePinIDs` and `TargetStageIDs` to appear on the same line. -/
def containerEdges (st : OrgState) (acc0 : List ASGEdge5) : List ASGEdge5 :=
  match st.containerRecord with
  | none => acc0
  | some r =>
    r.lines.foldl (fun acc line =>
      if containsSub (pys "LinkSourcePinIDs \"") line then
        match searchPreQuotedNL (pys "LinkSourcePinIDs \"") line with
        | some sp =>
          if containsSub (pys "TargetStageIDs \"") line then
            match searchPreQuotedNL (pys "TargetStageIDs \"") line with
            | some ts =>
              let target_stages := splitOnCharPy '|' ts
              (splitOnCharPy '|' sp).enum.foldl (fun acc2 ip =>
                if !ip.2.isEmpty && decide (ip.1 < target_stages.length)
                    && !((target_stages.get? ip.1).getD []).isEmpty then
                  let tsid := (target_stages.get? ip.1).getD []
                  if (dGet st.stageRecords tsid).isSome then
                    let target_pins := (dGet st.stageInputPins tsid).getD []
                    if !target_pins.isEmpty then
                      target_pins.foldl (fun acc3 tp =>
                        if (dGet st.pinRecords tp).isSome then
                          let e : ASGEdge5 :=
                            { from_node := rsplit1Before 'P' ip.2
                              from_pin := ip.2
                              from_pin_name := getPinName st ip.2
                              to_node := tsid
                              to_pin := tp
                              to_pin_name := getPinName st tp
                              join_type := pys "unknown" }
                          if edgeExists acc3 e then acc3 else acc3 ++ [e]
                        else acc3) acc2
                    else acc2
                  else acc2
                else acc2) acc
            | none => acc
          else acc
        | none => acc
      else acc) acc0

/-- `_build_edges` (src/temp5.py:1305–1370): the Partner pass followed by
the container pass. -/
def buildEdges (st : OrgState) : List ASGEdge5 :=
  containerEdges st (partnerEdges st)

/-! ## Theorems -/

example : decode_dsx_value (pys "\\(2)\\(2)0\\(1)\\(3)file\\(2)/D:\\\\ETL_Migrator\\\\inputfile.csv\\(2)0")
    = pys "D:\\ETL_Migrator\\inputfile.csv" := by decide

example : decode_dsx_value (pys "profile/data.csv") = pys "data.csv" := by decide

/-! ### Support lemmas for `decode_dsx_value` -/

theorem dropWhile_dropWhile_self (p : α → Bool) (l : List α) :
    (l.dropWhile p).dropWhile p = l.dropWhile p := by
  induction l with
  | nil => rfl
  | cons c t ih =>
    by_cases h : p c
    · simp [List.dropWhile_cons, h, ih]
    · simp [List.dropWhile_cons, h]

theorem pyRstrip_prefix (s : PyStr) : pyRstrip s <+: s := by
  have h1 : s.reverse.dropWhile isPySpace <:+ s.reverse := List.dropWhile_suffix isPySpace
  have h2 := List.reverse_prefix.mpr (by simpa using h1)
  simpa [pyRstrip] using h2

theorem pyRstrip_pyRstrip (s : PyStr) : pyRstrip (pyRstrip s) = pyRstrip s := by
  simp [pyRstrip, List.reverse_reverse, dropWhile_dropWhile_self]

theorem pyLstrip_pyRstrip_of_fixed (s : PyStr) (h : pyLstrip s = s) :
    pyLstrip (pyRstrip s) = pyRstrip s := by
  cases s with
  | nil => simp [pyRstrip, pyLstrip]
  | cons c t =>
    have hc : isPySpace c = false := by
      by_contra hb
      have hb' : isPySpace c = true := by
        cases hx : isPySpace c
        · exact absurd hx hb
        · rfl
      have := h
      rw [pyLstrip, List.dropWhile_cons, hb'] at this
      have hlen := congrArg List.length this
      have hsub : List.dropWhile isPySpace t <:+ t := List.dropWhile_suffix isPySpace
      have hle : (List.dropWhile isPySpace t).length ≤ t.length := hsub.sublist.length_le
      simp at hlen
      omega
    rcases pyRstrip_prefix (c :: t) with ⟨r, hr⟩
    cases hp : pyRstrip (c :: t) with
    | nil => simp [pyLstrip]
    | cons d u =>
      rw [hp] at hr
      have hd : d = c := by
        have := congrArg (·.head?) hr
        simpa using this
      subst hd
      simp [pyLstrip, List.dropWhile_cons, hc]

theorem pyStrip_pyStrip (s : PyStr) : pyStrip (pyStrip s) = pyStrip s := by
  have h1 : pyLstrip (pyLstrip s) = pyLstrip s := dropWhile_dropWhile_self _ _
  have h2 := pyLstrip_pyRstrip_of_fixed (pyLstrip s) h1
  simp [pyStrip, h2, pyRstrip_pyRstrip]

theorem pyStrip_decode_dsx_value (x : PyStr) :
    pyStrip (decode_dsx_value x) = decode_dsx_value x := by
  simp [decode_dsx_value, pyStrip_pyStrip]

theorem removeMarkersF_of_no_bs (fuel : Nat) (s : PyStr) (h : '\\' ∉ s) :
    removeMarkersF fuel s = s := by
  induction fuel generalizing s with
  | zero => rfl
  | succ n ih =>
    cases s with
    | nil => rfl
    | cons c t =>
      have hc : ¬(c = '\\') := fun e => h (e ▸ List.mem_cons_self c t)
      have ht : '\\' ∉ t := fun m => h (List.mem_cons_of_mem c m)
      simp only [removeMarkersF, if_neg hc]
      rw [ih t ht]

theorem unescapeBSF_of_no_bs (fuel : Nat) (s : PyStr) (h : '\\' ∉ s) :
    unescapeBSF fuel s = s := by
  induction fuel generalizing s with
  | zero => rfl
  | succ n ih =>
    cases s with
    | nil => rfl
    | cons c t =>
      have hc : ¬(c = '\\') := fun e => h (e ▸ List.mem_cons_self c t)
      have ht : '\\' ∉ t := fun m => h (List.mem_cons_of_mem c m)
      simp only [unescapeBSF, if_neg hc]
      rw [ih t ht]

theorem containsSub_of_isPrefixOf (pat s : PyStr) (h : pat.isPrefixOf s = true) :
    containsSub pat s = true := by
  cases s with
  | nil => simp [containsSub, findSubIdx, h]
  | cons c t => simp [containsSub, findSubIdx, h]

theorem containsSub_cons (pat : PyStr) (c : Char) (t : PyStr)
    (h : containsSub pat t = true) : containsSub pat (c :: t) = true := by
  simp only [containsSub, findSubIdx]
  by_cases hp : pat.isPrefixOf (c :: t)
  · simp [hp]
  · simp only [if_neg hp, Option.isSome_map]
    simpa [containsSub] using h

theorem head?_drop_mem (s : PyStr) (n : Nat) (c : Char) (h : (s.drop n).head? = some c) :
    c ∈ s := by
  have hm : c ∈ s.drop n := by
    cases hd : s.drop n with
    | nil => rw [hd] at h; exact absurd h (by simp)
    | cons a t =>
      rw [hd] at h
      simp only [List.head?_cons, Option.some.injEq] at h
      exact h ▸ List.mem_cons_self a t
  exact List.mem_of_mem_drop hm

theorem fileSlashAt_facts (s g : PyStr) (h : fileSlashAt s = some g) :
    (pys "file").isPrefixOf (pyLower s) = true ∧ (s.contains '/' || s.contains '\\') = true := by
  rw [fileSlashAt] at h
  split at h
  case isFalse => exact absurd h (by simp)
  case isTrue hcond =>
    simp only [Bool.and_eq_true, Bool.or_eq_true, decide_eq_true_eq] at hcond
    obtain ⟨⟨⟨hpre, hslash⟩, _⟩, _⟩ := hcond
    refine ⟨hpre, ?_⟩
    rcases hslash with h1 | h1
    · have hmem : '/' ∈ s := head?_drop_mem s 4 '/' h1
      simp [List.contains, List.elem_iff, hmem]
    · have hmem : '\\' ∈ s := head?_drop_mem s 4 '\\' h1
      simp [List.contains, List.elem_iff, hmem]

theorem afterFileSlash_facts (s g : PyStr) (h : afterFileSlash s = some g) :
    containsSub (pys "file") (pyLower s) = true ∧ (s.contains '/' || s.contains '\\') = true := by
  induction s with
  | nil => exact absurd h (by simp [afterFileSlash])
  | cons c t ih =>
    rw [afterFileSlash] at h
    cases hf : fileSlashAt (c :: t) with
    | some g0 =>
      rcases fileSlashAt_facts (c :: t) g0 hf with ⟨h1, h2⟩
      exact ⟨containsSub_of_isPrefixOf _ _ h1, h2⟩
    | none =>
      rw [hf] at h
      rcases ih h with ⟨h1, h2⟩
      refine ⟨by simpa [pyLower] using containsSub_cons _ c.toLower _ h1, ?_⟩
      rcases Bool.or_eq_true_iff.mp h2 with h3 | h3
      · have := List.elem_iff.mp h3
        simp [List.contains, List.elem_iff, List.mem_cons_of_mem c this]
      · have := List.elem_iff.mp h3
        simp [List.contains, List.elem_iff, List.mem_cons_of_mem c this]

/-! ### Claim C7 — idempotence of `decode_dsx_value` -/

/-- C7 counterexample: `decode_dsx_value` is not idempotent.  On `"/00"` the
first pass trims one trailing sentinel `0` (giving `"/0"`) and a second pass
trims another (giving `"/"`), so `decode(decode(x)) ≠ decode(x)`. -/
theorem decode_dsx_value_not_idempotent :
    ¬ (decode_dsx_value (decode_dsx_value (pys "/00")) = decode_dsx_value (pys "/00")) := by
  decide

/-- C7 (amended): `decode_dsx_value` is idempotent on every string whose
decoded value contains no backslash, no forward slash, and no occurrence of
`file` (case-insensitively); in general a decoded value that still contains a
slash or a `file` marker can decode further. -/
theorem decode_dsx_value_idem_on_clean (x : PyStr)
    (h1 : (decode_dsx_value x).contains '\\' = false)
    (h2 : (decode_dsx_value x).contains '/' = false)
    (h3 : containsSub (pys "file") (pyLower (decode_dsx_value x)) = false) :
    decode_dsx_value (decode_dsx_value x) = decode_dsx_value x := by
  have hnb : '\\' ∉ decode_dsx_value x := by
    intro m
    simp [List.contains, List.elem_iff, m] at h1
  have hrm : removeMarkers (decode_dsx_value x) = decode_dsx_value x :=
    removeMarkersF_of_no_bs _ _ hnb
  have hub : unescapeBS (decode_dsx_value x) = decode_dsx_value x :=
    unescapeBSF_of_no_bs _ _ hnb
  have hcore : decodeCore (decode_dsx_value x) = decode_dsx_value x := by
    rw [decodeCore]
    simp only [hrm, hub, h3, h1, h2, Bool.false_and, Bool.or_self, Bool.and_false,
      Bool.false_eq_true, if_false]
  calc decode_dsx_value (decode_dsx_value x)
      = pyStrip (decodeCore (decode_dsx_value x)) := rfl
    _ = pyStrip (decode_dsx_value x) := by rw [hcore]
    _ = decode_dsx_value x := pyStrip_decode_dsx_value x

/-- Witness for `decode_dsx_value_idem_on_clean` at the concrete input
`"\(2)hello"`, which decodes to `"hello"`. -/
theorem decode_dsx_value_idem_on_clean_witness :
    (decode_dsx_value (pys "\\(2)hello")).contains '\\' = false
    ∧ (decode_dsx_value (pys "\\(2)hello")).contains '/' = false
    ∧ containsSub (pys "file") (pyLower (decode_dsx_value (pys "\\(2)hello"))) = false
    ∧ decode_dsx_value (decode_dsx_value (pys "\\(2)hello"))
        = decode_dsx_value (pys "\\(2)hello") :=
  ⟨by decide, by decide, by decide,
    decode_dsx_value_idem_on_clean _ (by decide) (by decide) (by decide)⟩

/-! ### Claim C10 — the `file[/\]` prefix-stripping behaviour -/

/-- C10 counterexample: the claim says the decoder returns exactly the text
after the first (case-insensitive) `file/` occurrence, but on `"file/a/b0"`
the returned text `"a/b"` additionally lost a trailing sentinel `0` (the
trailing-`0` trim fires because the remainder still contains a slash). -/
theorem decode_dsx_value_file_cex :
    decode_dsx_value (pys "file/a/b0") ≠ pys "a/b0"
    ∧ decode_dsx_value (pys "file/a/b0") = pys "a/b" :=
  ⟨by decide, by decide⟩

/-- C10 (amended): whenever the decoded string (markers removed, backslashes
unescaped) contains `file` (any case) immediately followed by `/` or `\`, the
decoder returns the text after the first such occurrence — including when
`file` is the tail of a longer word such as `profile/` — except that a
trailing `0` is additionally trimmed when that text still contains a slash or
backslash, and surrounding whitespace is stripped. -/
theorem decode_dsx_value_after_file_slash (x g : PyStr)
    (h : afterFileSlash (unescapeBS (removeMarkers x)) = some g) :
    decode_dsx_value x =
      pyStrip (if g.getLast? = some '0' && (g.contains '/' || g.contains '\\')
               then g.dropLast else g) := by
  rcases afterFileSlash_facts _ _ h with ⟨h1, h2⟩
  have hcore : decodeCore x =
      (if g.getLast? = some '0' && (g.contains '/' || g.contains '\\')
       then g.dropLast else g) := by
    rw [decodeCore]
    simp only [h1, h2, Bool.and_self, Bool.true_and, if_true, h]
  rw [decode_dsx_value, hcore]

/-- Witness for `decode_dsx_value_after_file_slash` at `"profile/data.csv"`:
the directory prefix ending in `file` is silently lost and the decoder
returns `"data.csv"`. -/
theorem decode_dsx_value_after_file_slash_witness :
    afterFileSlash (unescapeBS (removeMarkers (pys "profile/data.csv"))) = some (pys "data.csv")
    ∧ decode_dsx_value (pys "profile/data.csv")
      = pyStrip (if (pys "data.csv").getLast? = some '0'
                    && ((pys "data.csv").contains '/' || (pys "data.csv").contains '\\')
                 then (pys "data.csv").dropLast else pys "data.csv") :=
  ⟨by decide, decode_dsx_value_after_file_slash _ _ (by decide)⟩

/-! ### Claim C2 — heredoc value parsing -/

/-- C2 (code bug): on the single-line heredoc `Value =+=+=+=SELECT 1=+=+=+=`
the spec requires the value `SELECT 1`, but `parse_heredoc_value` searches
for the six-character delimiter `=+=+==` (a typo for the seven-character
`=+=+=+=` that its caller `process_subrecord_values` checks for and that the
DSX grammar documents), finds none, and returns the whole stripped line with
the key and delimiters still attached.  `parse_complex_sql_heredoc` slices
`[8:-8]` around the seven-character delimiter and so silently drops one
character of content at each end (`SELECT 1` becomes `ELECT `).  No warning
is produced anywhere on a missing terminator. -/
theorem parse_heredoc_value_delim_bug :
    parse_heredoc_value [pys "Value =+=+=+=SELECT 1=+=+=+="] 0
      = (pys "Value =+=+=+=SELECT 1=+=+=+=", 1)
    ∧ parseComplexSqlHeredocContent (pys "=+=+=+=SELECT 1=+=+=+=") = pys "ELECT "
    ∧ containsSub (pys "=+=+==") (pys "Value =+=+=+=SELECT 1=+=+=+=") = false :=
  ⟨by decide, by decide, by decide⟩

/-! ### Order lemmas for Python string comparison -/

theorem pyLt_asymm (a b : PyStr) (h : pyLt a b = true) : pyLt b a = false := by
  induction a generalizing b with
  | nil =>
    cases b with
    | nil => simp [pyLt] at h
    | cons d u => simp [pyLt]
  | cons c t ih =>
    cases b with
    | nil => simp [pyLt] at h
    | cons d u =>
      rw [pyLt] at h
      rw [pyLt]
      by_cases hcd : c.toNat < d.toNat
      · have hdc : ¬ d.toNat < c.toNat := by omega
        simp [hcd, hdc]
      · by_cases hdc : d.toNat < c.toNat
        · simp [hcd, hdc] at h
        · simp only [if_neg hcd, if_neg hdc] at h
          simp only [if_neg hdc, if_neg hcd]
          exact ih u h

theorem pyLt_total_eq (a b : PyStr) (h1 : pyLt a b = false) (h2 : pyLt b a = false) :
    a = b := by
  induction a generalizing b with
  | nil =>
    cases b with
    | nil => rfl
    | cons d u => simp [pyLt] at h1
  | cons c t ih =>
    cases b with
    | nil => simp [pyLt] at h2
    | cons d u =>
      rw [pyLt] at h1 h2
      by_cases hcd : c.toNat < d.toNat
      · simp [hcd] at h1
      · by_cases hdc : d.toNat < c.toNat
        · simp [hdc, hcd] at h2
        · have hn : c.toNat = d.toNat := by omega
          have hc : c = d := by
            have h1 : c.val.toNat = d.val.toNat := hn
            have h2 : c.val = d.val := by
              apply UInt32.toNat.inj h1
            exact Char.ext h2
          subst hc
          simp only [if_neg hcd, if_neg hdc] at h1 h2
          rw [ih u h1 h2]

/-! ### Claim C1 — acyclicity of the surviving Talend connections -/

/-- C1 counterexample: the data-flow policing only breaks bidirectional
pairs, so a directed 3-cycle of `Transform` nodes survives intact: with
links `n1→n2`, `n2→n3`, `n3→n1` every link passes all rules and the
surviving set carries the cycle `n1→n2→n3→n1` (`k = 3`). -/
theorem policeLinks_three_cycle_cex :
    cycleChainB
      (policeLinks true []
        [⟨pys "n1", pys "Transform", pys "Map"⟩, ⟨pys "n2", pys "Transform", pys "Map"⟩,
          ⟨pys "n3", pys "Transform", pys "Map"⟩]
        [⟨pys "l1", pys "n1", pys "n2"⟩, ⟨pys "l2", pys "n2", pys "n3"⟩,
          ⟨pys "l3", pys "n3", pys "n1"⟩])
      [pys "n1", pys "n2", pys "n3"] = true := by decide

/-- C1 (amended): the surviving connection set contains no 2-cycle — for
every pair of distinct nodes at most one direction survives the policing in
`_build_talend_job_from_ir`; directed cycles of length 3 or more are not
removed. -/
theorem policeLinks_no_two_cycle (include_db : Bool)
    (mappings : List ((PyStr × PyStr) × PyStr)) (nodes : List PNode)
    (links : List PLink) (a b : PyStr)
    (h1 : hasEdgeB (policeLinks include_db mappings nodes links) a b = true)
    (h2 : hasEdgeB (policeLinks include_db mappings nodes links) b a = true) :
    a = b := by
  obtain ⟨l1, hl1mem, hl1⟩ := List.any_eq_true.mp h1
  obtain ⟨l2, hl2mem, hl2⟩ := List.any_eq_true.mp h2
  simp only [Bool.and_eq_true, decide_eq_true_eq] at hl1 hl2
  obtain ⟨hl1f, hl1t⟩ := hl1
  obtain ⟨hl2f, hl2t⟩ := hl2
  have hk1 : keepLink include_db mappings nodes links l1 = true :=
    List.of_mem_filter hl1mem
  have hk2 : keepLink include_db mappings nodes links l2 = true :=
    List.of_mem_filter hl2mem
  have hl1links : l1 ∈ links := List.mem_of_mem_filter hl1mem
  have hl2links : l2 ∈ links := List.mem_of_mem_filter hl2mem
  have hrev1 : links.any (fun l2' => l2'.fromId = l1.toId && l2'.toId = l1.fromId) = true := by
    refine List.any_eq_true.mpr ⟨l2, hl2links, ?_⟩
    simp [hl2f, hl2t, hl1f, hl1t]
  have hrev2 : links.any (fun l2' => l2'.fromId = l2.toId && l2'.toId = l2.fromId) = true := by
    refine List.any_eq_true.mpr ⟨l1, hl1links, ?_⟩
    simp [hl2f, hl2t, hl1f, hl1t]
  rw [keepLink] at hk1 hk2
  simp only [Bool.and_eq_true, Bool.not_eq_true'] at hk1 hk2
  obtain ⟨⟨⟨-, -⟩, -⟩, hpair1⟩ := hk1
  obtain ⟨⟨⟨-, -⟩, -⟩, hpair2⟩ := hk2
  rw [hrev1, Bool.true_and] at hpair1
  rw [hrev2, Bool.true_and] at hpair2
  rw [hl1f, hl1t] at hpair1
  rw [hl2f, hl2t] at hpair2
  exact pyLt_total_eq a b hpair2 hpair1

/-- Witness for `policeLinks_no_two_cycle`: a self-loop on a transform node
survives, realising both hypotheses with `a = b = "n1"`. -/
theorem policeLinks_no_two_cycle_witness :
    hasEdgeB (policeLinks true [] [⟨pys "n1", pys "Transform", pys "Map"⟩]
        [⟨pys "l1", pys "n1", pys "n1"⟩]) (pys "n1") (pys "n1") = true
    ∧ pys "n1" = pys "n1" :=
  ⟨by decide,
    policeLinks_no_two_cycle true [] [⟨pys "n1", pys "Transform", pys "Map"⟩]
      [⟨pys "l1", pys "n1", pys "n1"⟩] (pys "n1") (pys "n1") (by decide) (by decide)⟩

/-! ### Claim C5 — bidirectional pairs -/

/-- C5 counterexample: the claim says exactly one direction of a
bidirectional pair survives, but when the smaller-id endpoint is a `Sink`
both directions are dropped — `n1→n2` by the no-links-from-a-sink rule and
`n2→n1` by the bidirectional rule — so zero links survive. -/
theorem policeLinks_bidirectional_cex :
    policeLinks true []
      [⟨pys "n1", pys "Sink", pys "File"⟩, ⟨pys "n2", pys "Transform", pys "Map"⟩]
      [⟨pys "l1", pys "n1", pys "n2"⟩, ⟨pys "l2", pys "n2", pys "n1"⟩] = [] := by decide

/-- C5 (amended): when the IR link set contains both `A→B` and `B→A` with
`A < B` lexicographically, the direction with the larger source id never
survives, and the direction with the smaller source id survives exactly when
it also passes the sink/source role rules and neither endpoint is an
excluded DB node. -/
theorem policeLinks_bidirectional (include_db : Bool)
    (mappings : List ((PyStr × PyStr) × PyStr)) (nodes : List PNode)
    (links : List PLink) (a b : PyStr)
    (hab : links.any (fun l => l.fromId = a && l.toId = b) = true)
    (hba : links.any (fun l => l.fromId = b && l.toId = a) = true)
    (hlt : pyLt a b = true) :
    hasEdgeB (policeLinks include_db mappings nodes links) b a = false
    ∧ (get_node_role (nodeTypeOf nodes a) ≠ pys "sink" →
       get_node_role (nodeTypeOf nodes b) ≠ pys "source" →
       (excludedNodeIds include_db mappings nodes).contains a = false →
       (excludedNodeIds include_db mappings nodes).contains b = false →
       hasEdgeB (policeLinks include_db mappings nodes links) a b = true) := by
  constructor
  · cases hE : hasEdgeB (policeLinks include_db mappings nodes links) b a with
    | false => rfl
    | true =>
      exfalso
      obtain ⟨l, hlm, hl⟩ := List.any_eq_true.mp hE
      simp only [Bool.and_eq_true, decide_eq_true_eq] at hl
      obtain ⟨hlf, hlt'⟩ := hl
      have hk : keepLink include_db mappings nodes links l = true := List.of_mem_filter hlm
      have hrev : links.any (fun l2' => l2'.fromId = l.toId && l2'.toId = l.fromId) = true := by
        obtain ⟨l0, hl0m, hl0⟩ := List.any_eq_true.mp hab
        simp only [Bool.and_eq_true, decide_eq_true_eq] at hl0
        refine List.any_eq_true.mpr ⟨l0, hl0m, ?_⟩
        simp [hl0.1, hl0.2, hlf, hlt']
      rw [keepLink] at hk
      simp only [Bool.and_eq_true, Bool.not_eq_true'] at hk
      obtain ⟨-, hpair⟩ := hk
      rw [hrev, Bool.true_and, hlf, hlt'] at hpair
      rw [pyGt] at hpair
      rw [hlt] at hpair
      exact Bool.true_eq_false.mp hpair
  · intro hra hrb hea heb
    obtain ⟨l, hlm, hl⟩ := List.any_eq_true.mp hab
    simp only [Bool.and_eq_true, decide_eq_true_eq] at hl
    obtain ⟨hlf, hlt'⟩ := hl
    refine List.any_eq_true.mpr ⟨l, ?_, by simp [hlf, hlt']⟩
    refine List.mem_filter.mpr ⟨hlm, ?_⟩
    rw [keepLink]
    simp only [Bool.and_eq_true, Bool.not_eq_true']
    refine ⟨⟨⟨?_, ?_⟩, ?_⟩, ?_⟩
    · rw [hlf, hlt', hea, heb]
      simp
    · rw [hlf]
      simp [hra]
    · rw [hlt']
      simp [hrb]
    · rw [hlf, hlt', pyGt, pyLt_asymm a b hlt]
      simp

/-- Witness for `policeLinks_bidirectional` on a concrete transform pair:
`n1→n2` survives and `n2→n1` is dropped. -/
theorem policeLinks_bidirectional_witness :
    pyLt (pys "n1") (pys "n2") = true
    ∧ (hasEdgeB (policeLinks true []
          [⟨pys "n1", pys "Transform", pys "Map"⟩, ⟨pys "n2", pys "Transform", pys "Map"⟩]
          [⟨pys "l1", pys "n1", pys "n2"⟩, ⟨pys "l2", pys "n2", pys "n1"⟩])
          (pys "n2") (pys "n1") = false
       ∧ (get_node_role (nodeTypeOf
              [⟨pys "n1", pys "Transform", pys "Map"⟩, ⟨pys "n2", pys "Transform", pys "Map"⟩]
              (pys "n1")) ≠ pys "sink" →
          get_node_role (nodeTypeOf
              [⟨pys "n1", pys "Transform", pys "Map"⟩, ⟨pys "n2", pys "Transform", pys "Map"⟩]
              (pys "n2")) ≠ pys "source" →
          (excludedNodeIds true []
              [⟨pys "n1", pys "Transform", pys "Map"⟩, ⟨pys "n2", pys "Transform", pys "Map"⟩]).contains
              (pys "n1") = false →
          (excludedNodeIds true []
              [⟨pys "n1", pys "Transform", pys "Map"⟩, ⟨pys "n2", pys "Transform", pys "Map"⟩]).contains
              (pys "n2") = false →
          hasEdgeB (policeLinks true []
              [⟨pys "n1", pys "Transform", pys "Map"⟩, ⟨pys "n2", pys "Transform", pys "Map"⟩]
              [⟨pys "l1", pys "n1", pys "n2"⟩, ⟨pys "l2", pys "n2", pys "n1"⟩])
              (pys "n1") (pys "n2") = true)) :=
  ⟨by decide,
    policeLinks_bidirectional true []
      [⟨pys "n1", pys "Transform", pys "Map"⟩, ⟨pys "n2", pys "Transform", pys "Map"⟩]
      [⟨pys "l1", pys "n1", pys "n2"⟩, ⟨pys "l2", pys "n2", pys "n1"⟩]
      (pys "n1") (pys "n2") (by decide) (by decide) (by decide)⟩

/-! ### Claim C8 — tMap output expressions -/

theorem subUserLinkF_of_no_dot (incoming : PyStr) (fuel : Nat) (s : PyStr)
    (h : '.' ∉ s) : subUserLinkF incoming fuel s = s := by
  induction fuel generalizing s with
  | zero => rfl
  | succ n ih =>
    cases s with
    | nil => rfl
    | cons c1 rest1 =>
      have h1 : '.' ∉ rest1 := fun m => h (List.mem_cons_of_mem c1 m)
      rcases rest1 with _ | ⟨c2, _ | ⟨c3, _ | ⟨c4, _ | ⟨c5, _ | ⟨c6, _ | ⟨c7, _ | ⟨c8, _ | ⟨c9, rest⟩⟩⟩⟩⟩⟩⟩⟩
      · simp only [subUserLinkF]
        rw [ih _ h1]
      · simp only [subUserLinkF]
        rw [ih _ h1]
      · simp only [subUserLinkF]
        rw [ih _ h1]
      · simp only [subUserLinkF]
        rw [ih _ h1]
      · simp only [subUserLinkF]
        rw [ih _ h1]
      · simp only [subUserLinkF]
        rw [ih _ h1]
      · simp only [subUserLinkF]
        rw [ih _ h1]
      · simp only [subUserLinkF]
        rw [ih _ h1]
      · have hc9 : ¬(c9 = '.') := by
          intro e
          exact h (e ▸ (by simp : c9 ∈ c1 :: c2 :: c3 :: c4 :: c5 :: c6 :: c7 :: c8 :: c9 :: rest))
        simp only [subUserLinkF]
        rw [if_neg (by simp [hc9])]
        rw [ih _ h1]

/-- C8 counterexample: the claim's "pass-through `<incoming>.<col>`
otherwise" is wrong — for a transformed column whose expression is neither
an UPPER application, nor a dotted reference, nor the column name itself
(here expression `FOO` on column `B`), the emitted mapperTableEntries
expression is the IR expression unchanged, not `row1.B`. -/
theorem tmapOutputEntries_fallback_cex :
    (tmapOutputEntries [⟨pys "B", pys "string", true, pys "FOO"⟩] (pys "row1")).map
        (fun e => e.expression) = [pys "FOO"]
    ∧ pys "FOO" ≠ pys "row1.B" :=
  ⟨by decide, by decide⟩

/-- C8 (amended): for every tMap output column the emitted expression is:
`StringHandling.UPPER(<incoming>.X)` when the column's expression contains
an UPPER/UpperCase application (`X` the last dot-segment of the stripped
argument); `<incoming>.<last dot-segment>` when it contains a dot;
the pass-through `<incoming>.<col>` when the column has no transformation,
an empty expression, or an expression equal to the column name up to case;
and otherwise the IR expression unchanged (the code's `UserLink.` rewrite
can never fire there, because the expression has no dot). -/
theorem tmapOutputEntries_expressions (cols : List TmapCol) (incoming : PyStr) :
    (tmapOutputEntries cols incoming).map (fun e => e.expression)
      = cols.map (specTmapExpression incoming) := by
  induction cols with
  | nil => rfl
  | cons col rest ih =>
    simp only [tmapOutputEntries, List.map_cons] at ih ⊢
    refine congrArg₂ List.cons ?_ ih
    show (if col.hasTransformation && !col.expression.isEmpty then
            convert_ir_expression_to_talend col.expression incoming col.name
          else incoming ++ '.' :: col.name) = specTmapExpression incoming col
    by_cases hc : (col.hasTransformation && !col.expression.isEmpty) = true
    · rw [if_pos hc]
      have hc2 := hc
      simp only [Bool.and_eq_true] at hc2
      obtain ⟨ht, hne⟩ := hc2
      have hne' : col.expression.isEmpty = false := by
        cases hx : col.expression.isEmpty
        · rfl
        · rw [hx] at hne; exact absurd hne (by decide)
      rw [specTmapExpression, if_neg (by simp [ht, hne'])]
      rw [convert_ir_expression_to_talend, if_neg (by simp [hne'])]
      cases hs : searchUpperApp col.expression with
      | some arg0 => rfl
      | none =>
        by_cases hdot : col.expression.contains '.' = true
        · have hmem : '.' ∈ col.expression := List.elem_iff.mp hdot
          simp [hmem]
        · have hdot' : col.expression.contains '.' = false := by
            cases hx : col.expression.contains '.'
            · rfl
            · exact absurd hx hdot
          have hnm : ¬ ('.' ∈ col.expression) := by
            intro m
            have hm : col.expression.contains '.' = true := List.elem_iff.mpr m
            rw [hdot'] at hm
            exact absurd hm (by decide)
          simp only [hdot', Bool.false_eq_true, if_false]
          by_cases heq : (decide (col.expression = col.name)
              || decide (pyUpper col.expression = pyUpper col.name)) = true
          · rw [if_pos heq, if_pos heq]
          · rw [if_neg heq, if_neg heq]
            exact subUserLinkF_of_no_dot incoming _ _ hnm
    · rw [if_neg hc]
      have hcond : (!col.hasTransformation || col.expression.isEmpty) = true := by
        cases ha : col.hasTransformation <;> cases hb : col.expression.isEmpty <;>
          simp_all
      rw [specTmapExpression, if_pos hcond]

/-! ### Claim C9 — XML attribute escaping -/

theorem escParamValue_cons (c : Char) (t : PyStr) :
    escParamValue (c :: t) = escParamValue [c] ++ escParamValue t := by
  simp [escParamValue, pyReplaceChar, List.flatMap_cons, List.flatMap_append]

theorem escExpr_cons (c : Char) (t : PyStr) :
    escExpr (c :: t) = escExpr [c] ++ escExpr t := by
  simp [escExpr, pyReplaceChar, List.flatMap_cons, List.flatMap_append]

theorem escParamValue_single (c : Char) : escParamValue [c] = xmlEscChar c := by
  by_cases h1 : c = '&'
  · subst h1; decide
  by_cases h2 : c = '<'
  · subst h2; decide
  by_cases h3 : c = '>'
  · subst h3; decide
  by_cases h4 : c = '"'
  · subst h4; decide
  simp [escParamValue, pyReplaceChar, xmlEscChar, h1, h2, h3, h4]

theorem escExpr_single (c : Char) : escExpr [c] = xmlEscCharKeepQuote c := by
  by_cases h1 : c = '&'
  · subst h1; decide
  by_cases h2 : c = '<'
  · subst h2; decide
  by_cases h3 : c = '>'
  · subst h3; decide
  simp [escExpr, pyReplaceChar, xmlEscCharKeepQuote, h1, h2, h3]

theorem escParamValue_eq_bind (s : PyStr) : escParamValue s = s.flatMap xmlEscChar := by
  induction s with
  | nil => rfl
  | cons c t ih => rw [escParamValue_cons, List.flatMap_cons, ih, escParamValue_single]

theorem escExpr_eq_bind (s : PyStr) : escExpr s = s.flatMap xmlEscCharKeepQuote := by
  induction s with
  | nil => rfl
  | cons c t ih => rw [escExpr_cons, List.flatMap_cons, ih, escExpr_single]

theorem xmlEscChar_no_special (a x : Char) (hx : x = '"' ∨ x = '<' ∨ x = '>') :
    x ∉ xmlEscChar a := by
  intro hm
  rw [xmlEscChar] at hm
  by_cases h1 : a = '&'
  · subst h1
    simp only [if_pos rfl] at hm
    rcases hx with h | h | h <;> subst h <;> exact absurd hm (by decide)
  rw [if_neg h1] at hm
  by_cases h2 : a = '<'
  · subst h2
    simp only [if_pos rfl] at hm
    rcases hx with h | h | h <;> subst h <;> exact absurd hm (by decide)
  rw [if_neg h2] at hm
  by_cases h3 : a = '>'
  · subst h3
    simp only [if_pos rfl] at hm
    rcases hx with h | h | h <;> subst h <;> exact absurd hm (by decide)
  rw [if_neg h3] at hm
  by_cases h4 : a = '"'
  · subst h4
    simp only [if_pos rfl] at hm
    rcases hx with h | h | h <;> subst h <;> exact absurd hm (by decide)
  rw [if_neg h4] at hm
  have ha : x = a := by simpa using hm
  rcases hx with h | h | h <;> subst h
  · exact h4 ha.symm
  · exact h2 ha.symm
  · exact h3 ha.symm

/-- C9 counterexample: the tMap `mapperTableEntries` emitter escapes only
`&`, `<`, `>` in the expression attribute — a double quote inside the
expression is written into the attribute verbatim (`expression="A"B"`), so
the generated document is not well-formed XML, refuting the claim that every
attribute value has `"` escaped to `&quot;`. -/
theorem mapperEntryLineXml_quote_cex :
    mapperEntryLineXml ⟨pys "X", pys "A\"B", pys "id_String", pys "true"⟩
      = pys "        <mapperTableEntries name=\"X\" expression=\"A\"B\" type=\"id_String\" nullable=\"true\"/>"
    ∧ escExpr (pys "A\"B") ≠ escParamValue (pys "A\"B") :=
  ⟨by decide, by decide⟩

/-- C9 (amended): `elementParameter` values (for nodes and connections) have
all four of `&`, `<`, `>`, `"` escaped — the sequential `replace` chain
equals the character-wise entity map, so the result carries no raw `<`, `>`
or `"`; tMap `mapperTableEntries` expressions are escaped only for `&`, `<`,
`>` and keep raw double quotes; other attribute values (entry/metadata/
column names, connection labels and endpoints) are interpolated with no
escaping at all, so well-formedness of the emitted `.item` document is not
guaranteed for arbitrary strings. -/
theorem xml_attribute_escaping (s : PyStr) :
    escParamValue s = s.flatMap xmlEscChar
    ∧ '"' ∉ escParamValue s
    ∧ '<' ∉ escParamValue s
    ∧ '>' ∉ escParamValue s
    ∧ escExpr s = s.flatMap xmlEscCharKeepQuote := by
  refine ⟨escParamValue_eq_bind s, ?_, ?_, ?_, escExpr_eq_bind s⟩
  · rw [escParamValue_eq_bind]
    intro m
    obtain ⟨a, -, hm⟩ := List.mem_flatMap.mp m
    exact xmlEscChar_no_special a '"' (Or.inl rfl) hm
  · rw [escParamValue_eq_bind]
    intro m
    obtain ⟨a, -, hm⟩ := List.mem_flatMap.mp m
    exact xmlEscChar_no_special a '<' (Or.inr (Or.inl rfl)) hm
  · rw [escParamValue_eq_bind]
    intro m
    obtain ⟨a, -, hm⟩ := List.mem_flatMap.mp m
    exact xmlEscChar_no_special a '>' (Or.inr (Or.inr rfl)) hm

/-! ### Support lemmas for the ASG→IR lowering -/

theorem dGet_foldl_init (m : List (PyStr × α)) (k : PyStr) (init : Option α) :
    m.foldl (fun acc p => if p.1 = k then some p.2 else acc) init
      = match m.foldl (fun acc p => if p.1 = k then some p.2 else acc) none with
        | some v => some v
        | none => init := by
  induction m generalizing init with
  | nil => simp
  | cons p t ih =>
    rw [List.foldl_cons, List.foldl_cons, ih, ih (if p.1 = k then some p.2 else none)]
    cases ht : t.foldl (fun acc q => if q.1 = k then some q.2 else acc) none with
    | some v => simp
    | none =>
      by_cases hp : p.1 = k
      · simp [hp]
      · simp [hp]

theorem dGet_cons (x : PyStr × α) (m : List (PyStr × α)) (k : PyStr) :
    dGet (x :: m) k
      = match dGet m k with
        | some v => some v
        | none => if x.1 = k then some x.2 else none := by
  rw [dGet, List.foldl_cons, dGet_foldl_init]
  rfl

theorem convertNodes_ids (mapType : ASGNode7 → PyStr × PyStr) (c : Nat)
    (as : List ASGNode7) :
    (convertNodes mapType c as).1.map (fun n => n.id)
      = (List.range as.length).map (fun i => nId (c + i)) := by
  induction as generalizing c with
  | nil => rfl
  | cons a rest ih =>
    show ((convertSingleNode mapType c a).1 :: (convertNodes mapType (c + 1) rest).1).map
        (fun n => n.id) = _
    rw [List.map_cons, ih (c + 1), List.length_cons, List.range_succ_eq_map,
      List.map_cons, List.map_map]
    refine congrArg₂ List.cons (by rfl) ?_
    refine List.map_congr_left ?_
    intro i _
    show nId (c + 1 + i) = nId (c + (i + 1))
    have : c + 1 + i = c + (i + 1) := by omega
    rw [this]

theorem convertNodes_schemaRefs (mapType : ASGNode7 → PyStr × PyStr) (c : Nat)
    (as : List ASGNode7) :
    (((convertNodes mapType c as).1.zip as).all
      (fun p => p.1.schemaRef = none || p.1.schemaRef = some (sId p.2.id))) = true := by
  induction as generalizing c with
  | nil => rfl
  | cons a rest ih =>
    show ((((convertSingleNode mapType c a).1 :: (convertNodes mapType (c + 1) rest).1).zip
        (a :: rest)).all _) = true
    rw [List.zip_cons_cons, List.all_cons, Bool.and_eq_true]
    refine ⟨?_, ih (c + 1)⟩
    by_cases h1 : (!a.pins.isEmpty) = true
    · simp [convertSingleNode, h1]
    · by_cases h2 : should_have_schema a = true
      · simp [convertSingleNode, h1, h2]
      · simp [convertSingleNode, h1, h2]

theorem convertNodes_idMap_entries (mapType : ASGNode7 → PyStr × PyStr) (c : Nat)
    (as : List ASGNode7) (kv : PyStr × PyStr)
    (h : kv ∈ (convertNodes mapType c as).2.1) :
    ∃ j, j < as.length ∧ kv.2 = nId (c + j) := by
  induction as generalizing c with
  | nil => exact absurd h (by simp [convertNodes])
  | cons a rest ih =>
    have h' : kv ∈ (a.id, nId c) :: (convertNodes mapType (c + 1) rest).2.1 := h
    rcases List.mem_cons.mp h' with h1 | h1
    · exact ⟨0, by simp, by simp [h1]⟩
    · obtain ⟨j, hj, hv⟩ := ih (c + 1) h1
      exact ⟨j + 1, by simp only [List.length_cons]; omega,
        by rw [hv]; refine congrArg nId (by omega)⟩

theorem convertNodes_dGet_isSome (mapType : ASGNode7 → PyStr × PyStr) (c : Nat)
    (as : List ASGNode7) (k : PyStr) (hk : as.any (fun a => a.id = k) = true) :
    (dGet (convertNodes mapType c as).2.1 k).isSome = true := by
  induction as generalizing c with
  | nil => simp at hk
  | cons a rest ih =>
    show (dGet ((a.id, nId c) :: (convertNodes mapType (c + 1) rest).2.1) k).isSome = true
    rw [dGet_cons]
    rw [List.any_cons] at hk
    rcases Bool.or_eq_true_iff.mp hk with h1 | h1
    · cases hrest : dGet (convertNodes mapType (c + 1) rest).2.1 k with
      | some v => simp
      | none =>
        have ha : a.id = k := by simpa using h1
        simp [ha]
    · have := ih (c + 1) h1
      cases hrest : dGet (convertNodes mapType (c + 1) rest).2.1 k with
      | some v => simp
      | none => rw [hrest] at this; simp at this

theorem dGet_mem (m : List (PyStr × α)) (k : PyStr) (v : α)
    (h : dGet m k = some v) : (k, v) ∈ m := by
  induction m with
  | nil => exact absurd h (by simp [dGet])
  | cons x t ih =>
    rw [dGet_cons] at h
    cases ht : dGet t k with
    | some w =>
      rw [ht] at h
      simp only [Option.some.injEq] at h
      subst h
      exact List.mem_cons_of_mem x (ih ht)
    | none =>
      rw [ht] at h
      by_cases hx : x.1 = k
      · rw [if_pos hx] at h
        simp only [Option.some.injEq] at h
        have : x = (k, v) := by
          cases x with
          | mk x1 x2 => simp only at hx h; rw [hx, h]
        exact this ▸ List.mem_cons_self x t
      · rw [if_neg hx] at h
        exact absurd h (by simp)

theorem convertNodes_dGet_value (mapType : ASGNode7 → PyStr × PyStr) (c : Nat)
    (as : List ASGNode7) (k : PyStr) (hk : as.any (fun a => a.id = k) = true) :
    ∃ j, j < as.length ∧ dGet (convertNodes mapType c as).2.1 k = some (nId (c + j)) := by
  have hs := convertNodes_dGet_isSome mapType c as k hk
  obtain ⟨v, hd⟩ := Option.isSome_iff_exists.mp hs
  obtain ⟨j, hj, hv⟩ := convertNodes_idMap_entries mapType c as (k, v) (dGet_mem _ _ _ hd)
  exact ⟨j, hj, by rw [hd]; exact congrArg some hv⟩

theorem convertEdges_ids (pyHash : PyStr → Nat) (idm sm : List (PyStr × PyStr))
    (count : Nat) (schemas : List (PyStr × List IRColumn7)) (es : List ASGEdge7) :
    (convertEdges pyHash idm sm count schemas es).1.map (fun l => l.id)
      = (List.range es.length).map (fun j => lId (count + 1 + j)) := by
  induction es generalizing count schemas with
  | nil => rfl
  | cons e rest ih =>
    show (_ :: (convertEdges pyHash idm sm (count + 1)
        (getConsistentSchemaRef sm schemas e.from_node).2 rest).1).map (fun l => l.id) = _
    rw [List.map_cons, ih (count + 1), List.length_cons, List.range_succ_eq_map,
      List.map_cons, List.map_map]
    refine congrArg₂ List.cons (by rfl) ?_
    refine List.map_congr_left ?_
    intro i _
    show lId (count + 1 + 1 + i) = lId (count + 1 + (i + 1))
    refine congrArg lId (by omega)

theorem convertEdges_endpoints (pyHash : PyStr → Nat) (idm sm : List (PyStr × PyStr))
    (count : Nat) (schemas : List (PyStr × List IRColumn7)) (es : List ASGEdge7)
    (l : IRLink7) (h : l ∈ (convertEdges pyHash idm sm count schemas es).1) :
    ∃ e ∈ es, l.fromNodeId = getConsistentIrNodeId pyHash idm e.from_node
      ∧ l.toNodeId = getConsistentIrNodeId pyHash idm e.to_node := by
  induction es generalizing count schemas with
  | nil => exact absurd h (by simp [convertEdges])
  | cons e rest ih =>
    simp only [convertEdges] at h
    rcases List.mem_cons.mp h with h1 | h1
    · exact ⟨e, List.mem_cons_self e rest, by rw [h1], by rw [h1]⟩
    · obtain ⟨e0, he0, hf, ht⟩ := ih (count + 1) _ h1
      exact ⟨e0, List.mem_cons_of_mem e he0, hf, ht⟩

/-! ### Claim C3 — id assignment policy of the lowerer -/

/-- C3: for every ASG, the lowerer assigns IR node ids `n0, n1, …, n(k-1)`
in ASG traversal order, every schema id it assigns to a node is
`s_<asg node id>` of that node, link ids are `l1, l2, …` in edge traversal
order, and every ASG node id is recorded in the `asg_id → ir_id` map. -/
theorem convertASGToIR_id_policy (mapType : ASGNode7 → PyStr × PyStr)
    (pyHash : PyStr → Nat) (asg : ASGJob7) :
    ((convertASGToIR mapType pyHash asg).nodes.map (fun n => n.id)
        = (List.range asg.nodes.length).map nId)
    ∧ ((((convertASGToIR mapType pyHash asg).nodes.zip asg.nodes).all
        (fun p => p.1.schemaRef = none || p.1.schemaRef = some (sId p.2.id))) = true)
    ∧ ((convertASGToIR mapType pyHash asg).links.map (fun l => l.id)
        = (List.range asg.edges.length).map (fun j => lId (j + 1)))
    ∧ (asg.nodes.all
        (fun a => (dGet (convertASGToIR mapType pyHash asg).idMap a.id).isSome) = true) := by
  refine ⟨?_, ?_, ?_, ?_⟩
  · show (convertNodes mapType 0 asg.nodes).1.map (fun n => n.id) = _
    rw [convertNodes_ids]
    refine List.map_congr_left ?_
    intro i _
    show nId (0 + i) = nId i
    rw [Nat.zero_add]
  · exact convertNodes_schemaRefs mapType 0 asg.nodes
  · show (convertEdges pyHash (convertNodes mapType 0 asg.nodes).2.1
        (convertNodes mapType 0 asg.nodes).2.2.2 0
        (convertNodes mapType 0 asg.nodes).2.2.1 asg.edges).1.map (fun l => l.id) = _
    rw [convertEdges_ids]
    refine List.map_congr_left ?_
    intro j _
    show lId (0 + 1 + j) = lId (j + 1)
    refine congrArg lId (by omega)
  · rw [List.all_eq_true]
    intro a ha
    have hany : asg.nodes.any (fun a2 => a2.id = a.id) = true :=
      List.any_eq_true.mpr ⟨a, ha, by simp⟩
    show (dGet (convertNodes mapType 0 asg.nodes).2.1 a.id).isSome = true
    exact convertNodes_dGet_isSome mapType 0 asg.nodes a.id hany

/-! ### Claim C4 — link endpoints exist in the IR node list -/

/-- C4 counterexample: from an ASG with no nodes and a single edge `X→Y`,
the lowerer emits the link `l1` with endpoints fabricated as
`n{hash(id) % 10000}` (temp_7.py:832) although the IR node list is empty, so
the claim's "every link endpoint equals the id of some node present in
`nodes`" fails — for every possible hash value — and the code's own
`validate_ir` rejects the document. -/
theorem convertASGToIR_dangling_cex :
    ((convertASGToIR mapTypeDefault pyHashZero ⟨[], [⟨pys "X", pys "Y"⟩]⟩).nodes = [])
    ∧ ((convertASGToIR mapTypeDefault pyHashZero ⟨[], [⟨pys "X", pys "Y"⟩]⟩).links.map
        (fun l => l.id) = [pys "l1"])
    ∧ ((convertASGToIR mapTypeDefault pyHashZero ⟨[], [⟨pys "X", pys "Y"⟩]⟩).links.all
        (fun l =>
          (convertASGToIR mapTypeDefault pyHashZero ⟨[], [⟨pys "X", pys "Y"⟩]⟩).nodes.any
              (fun n => n.id = l.fromNodeId)
            && (convertASGToIR mapTypeDefault pyHashZero ⟨[], [⟨pys "X", pys "Y"⟩]⟩).nodes.any
              (fun n => n.id = l.toNodeId)) = false)
    ∧ validate_ir (convertASGToIR mapTypeDefault pyHashZero ⟨[], [⟨pys "X", pys "Y"⟩]⟩)
        = false :=
  ⟨by decide, by decide, by decide, by decide⟩

/-- C4 (amended): in the IR produced from any ASG whose every edge endpoint
references an id present in the ASG node list, every link's `from`/`to` node
id equals the id of some node present in the IR node list.  An endpoint
absent from the ASG node list instead receives the fabricated id
`n{hash % 10000}`, which need not exist (see the counterexample). -/
theorem convertASGToIR_link_endpoints (mapType : ASGNode7 → PyStr × PyStr)
    (pyHash : PyStr → Nat) (asg : ASGJob7)
    (h : asg.edges.all (fun e =>
        asg.nodes.any (fun a => a.id = e.from_node)
          && asg.nodes.any (fun a => a.id = e.to_node)) = true) :
    (convertASGToIR mapType pyHash asg).links.all (fun l =>
        (convertASGToIR mapType pyHash asg).nodes.any (fun n => n.id = l.fromNodeId)
          && (convertASGToIR mapType pyHash asg).nodes.any (fun n => n.id = l.toNodeId))
      = true := by
  rw [List.all_eq_true]
  intro l hl
  have hl' : l ∈ (convertEdges pyHash (convertNodes mapType 0 asg.nodes).2.1
      (convertNodes mapType 0 asg.nodes).2.2.2 0
      (convertNodes mapType 0 asg.nodes).2.2.1 asg.edges).1 := hl
  obtain ⟨e, he, hf, ht⟩ := convertEdges_endpoints _ _ _ _ _ _ _ hl'
  have he2 := (List.all_eq_true.mp h) e he
  simp only [Bool.and_eq_true] at he2 ⊢
  obtain ⟨hef, het⟩ := he2
  have hids := convertNodes_ids mapType 0 asg.nodes
  constructor
  · obtain ⟨j, hj, hd⟩ := convertNodes_dGet_value mapType 0 asg.nodes e.from_node hef
    have hfrom : l.fromNodeId = nId (0 + j) := by
      rw [hf]
      simp only [getConsistentIrNodeId, hd]
    have hmem : nId (0 + j) ∈ (convertNodes mapType 0 asg.nodes).1.map (fun n => n.id) := by
      rw [hids]
      exact List.mem_map.mpr ⟨j, List.mem_range.mpr hj, by rw [Nat.zero_add]⟩
    obtain ⟨n, hn, hneq⟩ := List.mem_map.mp hmem
    exact List.any_eq_true.mpr ⟨n, hn, by simp [hneq, hfrom]⟩
  · obtain ⟨j, hj, hd⟩ := convertNodes_dGet_value mapType 0 asg.nodes e.to_node het
    have hto : l.toNodeId = nId (0 + j) := by
      rw [ht]
      simp only [getConsistentIrNodeId, hd]
    have hmem : nId (0 + j) ∈ (convertNodes mapType 0 asg.nodes).1.map (fun n => n.id) := by
      rw [hids]
      exact List.mem_map.mpr ⟨j, List.mem_range.mpr hj, by rw [Nat.zero_add]⟩
    obtain ⟨n, hn, hneq⟩ := List.mem_map.mp hmem
    exact List.any_eq_true.mpr ⟨n, hn, by simp [hneq, hto]⟩

/-- Witness for `convertASGToIR_link_endpoints` on a one-node ASG with a
self-edge `A→A`. -/
theorem convertASGToIR_link_endpoints_witness :
    ((⟨[⟨pys "A", pys "A", pys "T", [], none⟩], [⟨pys "A", pys "A"⟩]⟩ : ASGJob7).edges.all
        (fun e =>
          (⟨[⟨pys "A", pys "A", pys "T", [], none⟩], [⟨pys "A", pys "A"⟩]⟩ : ASGJob7).nodes.any
              (fun a => a.id = e.from_node)
            && (⟨[⟨pys "A", pys "A", pys "T", [], none⟩], [⟨pys "A", pys "A"⟩]⟩ : ASGJob7).nodes.any
              (fun a => a.id = e.to_node)) = true)
    ∧ ((convertASGToIR mapTypeDefault pyHashZero
          ⟨[⟨pys "A", pys "A", pys "T", [], none⟩], [⟨pys "A", pys "A"⟩]⟩).links.all
        (fun l =>
          (convertASGToIR mapTypeDefault pyHashZero
              ⟨[⟨pys "A", pys "A", pys "T", [], none⟩], [⟨pys "A", pys "A"⟩]⟩).nodes.any
              (fun n => n.id = l.fromNodeId)
            && (convertASGToIR mapTypeDefault pyHashZero
              ⟨[⟨pys "A", pys "A", pys "T", [], none⟩], [⟨pys "A", pys "A"⟩]⟩).nodes.any
              (fun n => n.id = l.toNodeId)) = true) :=
  ⟨by decide,
    convertASGToIR_link_endpoints mapTypeDefault pyHashZero
      ⟨[⟨pys "A", pys "A", pys "T", [], none⟩], [⟨pys "A", pys "A"⟩]⟩ (by decide)⟩

/-! ### Claim C6 — container-derived edges -/

/-- C6 (code bug): for a record forest whose `V0` container names the
`(source pin, target stage)` pair `("V0S1P1", "V0S2")` in its
`LinkSourcePinIDs`/`TargetStageIDs` arrays and whose pins carry no `Partner`
references, the claim (and the spec) require `_build_edges` to add an edge
from `V0S1P1` to an input pin of `V0S2` — but `_organize_records` skips `V0`
records before the branch that would store `container_record`
(src/temp5.py:854 versus 886–887), so the container is never recorded and
no edge is produced.  The third conjunct shows the container pass would add
exactly the expected edge if the container were stored (and the two arrays
appeared on one line, as the nested check requires). -/
theorem buildEdges_container_dead :
    ((organizeRecords
        [⟨pys "V0", [pys "LinkSourcePinIDs \"V0S1P1\"", pys "TargetStageIDs \"V0S2\""]⟩,
          ⟨pys "V0S1", [pys "OutputPins \"V0S1P1\""]⟩,
          ⟨pys "V0S2", [pys "InputPins \"V0S2P1\""]⟩,
          ⟨pys "V0S1P1", [pys "OLEType \"CTrxOutput\""]⟩,
          ⟨pys "V0S2P1", [pys "OLEType \"CTrxInput\""]⟩]).containerRecord = none)
    ∧ (buildEdges (organizeRecords
        [⟨pys "V0", [pys "LinkSourcePinIDs \"V0S1P1\"", pys "TargetStageIDs \"V0S2\""]⟩,
          ⟨pys "V0S1", [pys "OutputPins \"V0S1P1\""]⟩,
          ⟨pys "V0S2", [pys "InputPins \"V0S2P1\""]⟩,
          ⟨pys "V0S1P1", [pys "OLEType \"CTrxOutput\""]⟩,
          ⟨pys "V0S2P1", [pys "OLEType \"CTrxInput\""]⟩]) = [])
    ∧ (containerEdges
        { organizeRecords
            [⟨pys "V0", [pys "LinkSourcePinIDs \"V0S1P1\"", pys "TargetStageIDs \"V0S2\""]⟩,
              ⟨pys "V0S1", [pys "OutputPins \"V0S1P1\""]⟩,
              ⟨pys "V0S2", [pys "InputPins \"V0S2P1\""]⟩,
              ⟨pys "V0S1P1", [pys "OLEType \"CTrxOutput\""]⟩,
              ⟨pys "V0S2P1", [pys "OLEType \"CTrxInput\""]⟩] with
          containerRecord :=
            some ⟨pys "V0", [pys "LinkSourcePinIDs \"V0S1P1\" TargetStageIDs \"V0S2\""]⟩ } []
        = [⟨pys "V0S1", pys "V0S1P1", some [], pys "V0S2", pys "V0S2P1", some [],
            pys "unknown"⟩]) :=
  ⟨by decide, by decide, by decide⟩
